import Mathlib

/-!
Verification of the gptscript runner (pkg/runner/runner.go).

The development shallowly embeds the runner's data model and call driver:

* pure Go functions (`getContextInput`, `isGitHubTool`, the `State` walkers
  `ContinuationContent` / `ContinuationContentToolID`) become Lean functions;
* the effectful driver (`Chat` / `Run` / `call` / `start` / `resume` /
  `subCalls` / `getContext` / `handleCredentials`) becomes a fuel-indexed
  interpreter.  External collaborators (the LLM engine, the authorizer, the
  credential store, the JSON codec of the standard library) are supplied as an
  explicit record `Externals`; monitor events, `engine.Start` / `engine.Continue`
  invocations and `store.Add` calls are recorded in a trace `W`.  Errors are
  `Except RErr`; the trace of a failed run is not observed.
* the sub-call dispatcher is modelled serially, in submission order: this is
  exactly the serial dispatcher selected by `Sequential=true` (and also the
  submission order used in parallel mode); parallel completion interleavings
  are outside the embedding.
-/

/-- A decoded JSON value, as produced by `encoding/json` unmarshalling into a
Go `any`.  The runner only ever constructs strings itself and passes other
values through opaquely; we carry the shapes needed by the claims. -/
inductive JValue where
  | null
  | str (s : String)
  | num (n : Int)
  | boolean (b : Bool)
deriving DecidableEq

/-- Association-list lookup, modelling a Go `map[string]V` index expression
(`m[k]` yields the zero value when the key is absent; callers apply `getD`). -/
def alookup {α : Type} : List (String × α) → String → Option α
  | [], _ => none
  | (k, v) :: rest, key => if k = key then some v else alookup rest key

/-- Association-list insert-or-replace, modelling a Go map assignment
`m[k] = v`. -/
def ainsert {α : Type} : List (String × α) → String → α → List (String × α)
  | [], k, v => [(k, v)]
  | (k', v') :: rest, k, v =>
    if k' = k then (k, v) :: rest else (k', v') :: ainsert rest k v

/-- Is the first character list a prefix of the second?  (Kernel-computable
stand-in for `String.startsWith`.) -/
def listIsPre : List Char → List Char → Bool
  | [], _ => true
  | _, [] => false
  | p :: ps, c :: cs => p = c && listIsPre ps cs

/-- Go `strings.HasPrefix` / `String.startsWith` over the character data. -/
def goStartsWith (s p : String) : Bool :=
  listIsPre p.data s.data

/-- Go `strings.HasSuffix` over the character data. -/
def goEndsWith (s p : String) : Bool :=
  listIsPre p.data.reverse s.data.reverse

/-- `String.drop` over the character data. -/
def goDrop (s : String) (n : Nat) : String :=
  String.mk (s.data.drop n)

/-- `String.dropRight` over the character data. -/
def goDropRight (s : String) (n : Nat) : String :=
  String.mk (s.data.take (s.data.length - n))

/-- Go `strings.ToLower` over the character data. -/
def goToLower (s : String) : String :=
  String.mk (s.data.map Char.toLower)

/-- The field collector of Go `strings.Fields`: characters accumulate into
`cur` (reversed) and whitespace flushes. -/
def fieldsAux : List Char → List Char → List String
  | [], cur => if cur = [] then [] else [String.mk cur.reverse]
  | c :: cs, cur =>
    if c.isWhitespace then
      if cur = [] then fieldsAux cs []
      else String.mk cur.reverse :: fieldsAux cs []
    else fieldsAux cs (c :: cur)

/-- Go `strings.Fields`: split around runs of whitespace. -/
def goFields (s : String) : List String :=
  fieldsAux s.data []

/-- Go `strings.TrimPrefix`. -/
def goTrimPre (s p : String) : String :=
  if goStartsWith s p then goDrop s p.length else s

/-- Go `strings.TrimSuffix`. -/
def goTrimSuf (s p : String) : String :=
  if goEndsWith s p then goDropRight s p.length else s

/-- Lexicographic comparison of character data by code point, the order
`sort.Strings` uses (byte order; identical on the ASCII call ids and keys the
runner handles). -/
def charListLe : List Char → List Char → Bool
  | [], _ => true
  | _ :: _, [] => false
  | a :: as, b :: bs =>
    if a.toNat < b.toNat then true
    else if b.toNat < a.toNat then false
    else charListLe as bs

/-- String comparison over the character data. -/
def strLe (a b : String) : Bool :=
  charListLe a.data b.data

/-- The sorting relation of the model (`sort.Strings` order). -/
def strLeProp (a b : String) : Prop :=
  strLe a b = true

instance strLePropDec : DecidableRel strLeProp :=
  fun a b => inferInstanceAs (Decidable (strLe a b = true))

instance strLePropTotal : IsTotal String strLeProp := by
  constructor
  have H : ∀ as bs, charListLe as bs = true ∨ charListLe bs as = true := by
    intro as
    induction as with
    | nil =>
      intro bs
      exact .inl rfl
    | cons a as ih =>
      intro bs
      cases bs with
      | nil => exact .inr rfl
      | cons b bs =>
        simp only [charListLe]
        by_cases hab : a.toNat < b.toNat
        · exact .inl (by rw [if_pos hab])
        · by_cases hba : b.toNat < a.toNat
          · exact .inr (by rw [if_pos hba])
          · rcases ih bs with h | h
            · exact .inl (by rw [if_neg hab, if_neg hba]; exact h)
            · exact .inr (by rw [if_neg hba, if_neg hab]; exact h)
  intro a b
  exact H a.data b.data

instance strLePropTrans : IsTrans String strLeProp := by
  constructor
  have H : ∀ as bs cs, charListLe as bs = true → charListLe bs cs = true →
      charListLe as cs = true := by
    intro as
    induction as with
    | nil =>
      intro bs cs _ _
      rfl
    | cons a as ih =>
      intro bs cs h1 h2
      cases bs with
      | nil => simp [charListLe] at h1
      | cons b bs =>
        cases cs with
        | nil => simp [charListLe] at h2
        | cons c cs =>
          simp only [charListLe] at h1 h2 ⊢
          by_cases hab : a.toNat < b.toNat
          · by_cases hbc : b.toNat < c.toNat
            · rw [if_pos (by omega)]
            · by_cases hcb : c.toNat < b.toNat
              · rw [if_neg hbc, if_pos hcb] at h2
                exact absurd h2 (by simp)
              · rw [if_pos (by omega)]
          · by_cases hba : b.toNat < a.toNat
            · rw [if_neg hab, if_pos hba] at h1
              exact absurd h1 (by simp)
            · rw [if_neg hab, if_neg hba] at h1
              by_cases hbc : b.toNat < c.toNat
              · rw [if_pos (by omega)]
              · by_cases hcb : c.toNat < b.toNat
                · rw [if_neg hbc, if_pos hcb] at h2
                  exact absurd h2 (by simp)
                · rw [if_neg hbc, if_neg hcb] at h2
                  rw [if_neg (by omega), if_neg (by omega)]
                  exact ih bs cs h1 h2
  intro a b c
  exact H a.data b.data c.data

/-- Minimal JSON string quoting (escapes backslash and quote), standing in for
`encoding/json` string encoding on the material the runner produces. -/
def jsonQuote (s : String) : String :=
  "\"" ++ String.join (s.toList.map (fun c =>
    if c = '\\' then "\\\\" else if c = '"' then "\\\"" else String.singleton c)) ++ "\""

/-- Rendering of a decoded JSON value, used when `getContextInput` marshals its
output object. -/
def jvRender : JValue → String
  | .null => "null"
  | .str s => jsonQuote s
  | .num n => toString n
  | .boolean b => if b then "true" else "false"

/-- `json.Marshal` of a `map[string]any`: fields are emitted in sorted key
order. -/
def renderObj (pairs : List (String × JValue)) : String :=
  let ks := List.insertionSort strLeProp (pairs.map Prod.fst)
  "\x7b" ++ String.intercalate ","
    (ks.map (fun k => jsonQuote k ++ ":" ++ jvRender ((alookup pairs k).getD .null))) ++ "\x7d"

/-- `engine.Call`: a tool call requested by the LLM (fields used by the
runner). -/
structure Call where
  ToolID : String := ""
  Input : String := ""
deriving DecidableEq

/-- Modelled from the spec: `engine.State` (the engine package is not under
src/), an opaque LLM conversation snapshot.  The runner reads only its `Input`
field; `tag` distinguishes otherwise-equal snapshots. -/
structure EngState where
  Input : String := ""
  tag : Nat := 0
deriving DecidableEq

/-- `engine.Return` (the Continuation): terminal `Result` or pending `Calls`,
plus the engine conversation state.  Modelled from the spec for the fields the
runner consumes; `Calls` is the keyed map `callID → Call` as an association
list. -/
structure Return where
  Result : Option String := none
  Calls : List (String × Call) := []
  State : Option EngState := none
deriving DecidableEq

/-- `engine.CallResult`: a completed sub-call result (or a synthetic user
input, `User`) handed back to `engine.Continue`. -/
structure CallResult where
  ToolID : String := ""
  CallID : String := ""
  Result : String := ""
  User : String := ""
deriving DecidableEq

/-- `engine.InputContext`: a resolved context-provider output. -/
structure InputContext where
  ToolID : String := ""
  Content : String := ""
deriving DecidableEq

/-- `types.ToolReference` (fields the runner uses: the resolved tool id and
the context argument string). -/
structure ToolReference where
  ToolID : String := ""
  Arg : String := ""
deriving DecidableEq

/-- `types.Tool`, restricted to the fields the runner consumes.  `isCommand`
is the value of the `IsCommand()` predicate; `Arguments` carries the property
names of the tool's argument schema (`Arguments.Properties` keys);
`SourceRepo` is `Source.Repo` (`none` = nil). -/
structure Tool where
  ID : String := ""
  Chat : Bool := false
  isCommand : Bool := false
  Credentials : List String := []
  ToolMapping : List (String × List ToolReference) := []
  Arguments : Option (List String) := none
  SourceRepo : Option String := none
deriving DecidableEq

/-- `types.Program`: the immutable tool table.  `contextRefs` models
`GetContextToolRefs` (declared in the types package, not under src/): the
ordered context references of each tool, from the spec. -/
structure Program where
  ToolSet : List (String × Tool) := []
  EntryToolID : String := ""
  contextRefs : List (String × List ToolReference) := []

/-- A Go map index `prg.ToolSet[id]`: the zero `Tool` when absent. -/
def Program.toolGet (prg : Program) (id : String) : Tool :=
  (alookup prg.ToolSet id).getD {}

/-- `engine.ToolCategory`. -/
inductive ToolCategory where
  | noCategory
  | context
  | credential
deriving DecidableEq

/-- `engine.Context`, restricted to the per-frame fields the runner reads and
writes. -/
structure Context where
  Tool : Tool := {}
  ToolCategory : ToolCategory := .noCategory
  InputContext : List InputContext := []
  LastReturn : Option Return := none

/-- `credentials.Credential` (the credentials package is not under src/;
fields from the runner's constructions and the spec).  `CredType` is the Go
field `Type`. -/
structure Credential where
  ToolName : String := ""
  CredType : String := ""
  Env : List (String × String) := []
deriving DecidableEq

/-- `AuthorizerResponse`. -/
structure AuthorizerResponse where
  Accept : Bool := false
  Message : String := ""
deriving DecidableEq

/-- `isGitHubTool`. -/
def isGitHubTool (toolName : String) : Bool :=
  goStartsWith toolName "github.com"

/-- The runner's `EventType` enumeration. -/
inductive EventType where
  | runStart
  | callStart
  | callContinue
  | callSubCalls
  | callProgress
  | callChat
  | callFinish
  | runFinish
deriving DecidableEq

/-- A monitor `Event` (the wall-clock `Time` and the call-context projection
are not modelled).  `EType` is the Go field `Type`. -/
structure Event where
  EType : EventType
  Content : String := ""
  ToolResults : Nat := 0
  ToolSubCalls : List (String × Call) := []
deriving DecidableEq

/-- Runner errors: plain wrapped errors, the typed `builtin.ErrChatFinish`,
Go runtime panics, and interpreter fuel exhaustion. -/
inductive RErr where
  | msg (s : String)
  | chatFinish (m : String)
  | panicked (s : String)
  | outOfFuel
deriving DecidableEq

/-- The observable trace of a run: monitor events, `engine.Start` invocations
(tool id and input), `engine.Continue` invocations (the call-result lists
handed to the engine), and credentials passed to `store.Add`. -/
structure W where
  events : List Event := []
  engineStarts : List (String × String) := []
  continues : List (List CallResult) := []
  adds : List Credential := []
deriving DecidableEq

/-- Record a monitor event. -/
def W.emit (w : W) (e : Event) : W :=
  { w with events := w.events ++ [e] }

mutual

/-- `runner.State`: the serializable resumable snapshot (runner.go lines
454-468).  Recursive through `InputContextContinuation` and
`SubCalls[].State`, hence an inductive with accessor functions below. -/
inductive State where
  | mk :
    (Continuation : Option Return) →
    (ContinuationToolID : String) →
    (Result : Option String) →
    (ResumeInput : Option String) →
    (SubCalls : List SubCallResult) →
    (SubCallID : String) →
    (InputContexts : List InputContext) →
    (InputContextContinuation : Option State) →
    (InputContextContinuationInput : String) →
    (InputContextContinuationResumeInput : Option String) →
    (StartContinuation : Bool) →
    State

/-- `runner.SubCallResult` (accessors use the struct's JSON tag names:
`toolId`, `callId`, `state`). -/
inductive SubCallResult where
  | mk :
    (toolId : String) →
    (callId : String) →
    (state : Option State) →
    SubCallResult

end

def State.Continuation : State → Option Return
  | .mk c _ _ _ _ _ _ _ _ _ _ => c

def State.ContinuationToolID : State → String
  | .mk _ ct _ _ _ _ _ _ _ _ _ => ct

def State.Result : State → Option String
  | .mk _ _ r _ _ _ _ _ _ _ _ => r

def State.ResumeInput : State → Option String
  | .mk _ _ _ ri _ _ _ _ _ _ _ => ri

def State.SubCalls : State → List SubCallResult
  | .mk _ _ _ _ sc _ _ _ _ _ _ => sc

def State.SubCallID : State → String
  | .mk _ _ _ _ _ scid _ _ _ _ _ => scid

def State.InputContexts : State → List InputContext
  | .mk _ _ _ _ _ _ ic _ _ _ _ => ic

def State.InputContextContinuation : State → Option State
  | .mk _ _ _ _ _ _ _ icc _ _ _ => icc

def State.InputContextContinuationInput : State → String
  | .mk _ _ _ _ _ _ _ _ icci _ _ => icci

def State.InputContextContinuationResumeInput : State → Option String
  | .mk _ _ _ _ _ _ _ _ _ iccri _ => iccri

def State.StartContinuation : State → Bool
  | .mk _ _ _ _ _ _ _ _ _ _ stc => stc

/-- The zero `State` (the Go literal `&State{}`). -/
def State.zero : State :=
  .mk none "" none none [] "" [] none "" none false

/-- `State.WithResumeInput` (runner.go lines 470-473): copy with the given
resume input. -/
def State.withResumeInput : State → Option String → State
  | .mk c ct r _ sc scid ic icc icci iccri stc, input =>
    .mk c ct r input sc scid ic icc icci iccri stc

/-- Copy with `StartContinuation` set (the `newState.StartContinuation = true`
assignment in `start`). -/
def State.setStartContinuation : State → Bool → State
  | .mk c ct r ri sc scid ic icc icci iccri _, b =>
    .mk c ct r ri sc scid ic icc icci iccri b

/-- The field updates `getContext` performs on its copied state when a prior
context-provider continuation is present: clear `InputContexts`,
`InputContextContinuation` and its input, and install the carried resume
input. -/
def State.clearContextContinuation : State → Option String → State
  | .mk c ct r _ sc scid _ _ _ iccri stc, ri =>
    .mk c ct r ri sc scid [] none "" iccri stc

/-- Copy with the `InputContexts`, `InputContextContinuation`,
`InputContextContinuationInput` fields set (the suspension construction in
`getContext`). -/
def State.setContextContinuation :
    State → List InputContext → State → String → State
  | .mk c ct r ri sc scid _ _ _ iccri stc, ics, icc, icci =>
    .mk c ct r ri sc scid ics (some icc) icci iccri stc

/-- Copy with `InputContextContinuationResumeInput` set. -/
def State.setICCResumeInput : State → Option String → State
  | .mk c ct r ri sc scid ic icc icci _ stc, iccri =>
    .mk c ct r ri sc scid ic icc icci iccri stc

def SubCallResult.toolId : SubCallResult → String
  | .mk t _ _ => t

def SubCallResult.callId : SubCallResult → String
  | .mk _ c _ => c

def SubCallResult.state : SubCallResult → Option State
  | .mk _ _ s => s

mutual

/-- `State.ContinuationContent` (runner.go lines 492-507): the deepest
continuation result, descending `InputContextContinuation` first, then the
active `SubCalls` entry. -/
def State.ContinuationContent : State → Except RErr String
  | .mk c _ _ _ subs scid _ icc _ _ _ =>
    match c with
    | some ret =>
      match ret.Result with
      | some r => .ok r
      | none =>
        match icc with
        | some s => s.ContinuationContent
        | none => State.contentOfSubCalls scid subs
    | none =>
      match icc with
      | some s => s.ContinuationContent
      | none => State.contentOfSubCalls scid subs

/-- The `SubCalls` scan of `ContinuationContent`: the entry whose call id
matches `SubCallID`, or the illegal-state error. -/
def State.contentOfSubCalls : String → List SubCallResult → Except RErr String
  | _, [] => .error (.msg "illegal state: no result message found in chat response")
  | scid, .mk _ cid st :: rest =>
    if scid = cid then
      match st with
      | some s => s.ContinuationContent
      | none => .error (.panicked "nil SubCallResult.State")
    else State.contentOfSubCalls scid rest

end

mutual

/-- `State.ContinuationContentToolID` (runner.go lines 475-490): the id of the
tool that produced the deepest continuation result. -/
def State.ContinuationContentToolID : State → Except RErr String
  | .mk c ctid _ _ subs scid _ icc _ _ _ =>
    match c with
    | some ret =>
      match ret.Result with
      | some _ => .ok ctid
      | none =>
        match icc with
        | some s => s.ContinuationContentToolID
        | none => State.toolIDOfSubCalls scid subs
    | none =>
      match icc with
      | some s => s.ContinuationContentToolID
      | none => State.toolIDOfSubCalls scid subs

/-- The `SubCalls` scan of `ContinuationContentToolID`. -/
def State.toolIDOfSubCalls : String → List SubCallResult → Except RErr String
  | _, [] => .error (.msg "illegal state: no result message found in chat response")
  | scid, .mk _ cid st :: rest =>
    if scid = cid then
      match st with
      | some s => s.ContinuationContentToolID
      | none => .error (.panicked "nil SubCallResult.State")
    else State.toolIDOfSubCalls scid rest

end

/-- The external collaborators of a run: the program, the built-in safe-list
(`builtin.SafeTools`), the authorizer, the LLM engine, the credential store
reads, the parsed credential overrides, and the `encoding/json` decoders the
runner invokes (JSON object decode for `getContextInput`, the credential-tool
response decode, and the `State` decode used by `Chat` on string input). -/
structure Externals where
  prg : Program
  safeTools : List String := []
  auth : Context → String → Except RErr AuthorizerResponse := fun _ _ => .ok { Accept := true }
  engineStart : Context → String → Except RErr Return
  engineContinue : Context → Option EngState → List CallResult → Except RErr Return
  storeGet : String → Except RErr (Option Credential) := fun _ => .ok none
  credOverrides : List (String × List (String × String)) := []
  jsonDecodeObj : String → List (String × JValue) := fun _ => []
  jsonDecodeEnvMap : String → Except RErr (List (String × String)) := fun _ => .error (.msg "unmarshal")
  jsonDecodeState : String → Except RErr State := fun _ => .error (.msg "unmarshal")

/-- `DefaultAuthorizer`: accept everything. -/
def DefaultAuthorizer : Context → String → Except RErr AuthorizerResponse :=
  fun _ _ => .ok { Accept := true, Message := "" }

/-- Modelled from the spec: `engine.Context.SubCall` (the engine package is
not under src/) builds the child frame for a tool id and category; a missing
tool is the `ToolNotFound` program error. -/
def Program.subCallCtx (prg : Program) (toolID : String) (category : ToolCategory) :
    Except RErr Context :=
  match alookup prg.ToolSet toolID with
  | some t => .ok { Tool := t, ToolCategory := category }
  | none => .error (.msg ("tool not found: " ++ toolID))

/-- Modelled from the spec: `engine.NewContext` (the engine package is not
under src/) builds the top-level frame on the program's entry tool. -/
def Program.newContext (prg : Program) : Context :=
  { Tool := prg.toolGet prg.EntryToolID }

/-- The token loop of `getContextInput` (runner.go lines 258-304), iterating
the whitespace-split fields of the reference's `Arg`: `and` separates, `as`
aliases the following token, `$key` / `$\x7bkey\x7d` reads the parent input
map, any other token is a literal.  `targetKeys` maps lowercased schema
property names to their originals; `out` is the accumulated output object. -/
def gciLoop (toolID : String) (targetKeys : List (String × String))
    (inputMap : List (String × JValue)) :
    List String → List (String × JValue) → Except String (List (String × JValue))
  | [], out => .ok out
  | field :: rest, out =>
    if field = "and" then gciLoop toolID targetKeys inputMap rest out
    else if field = "as" then
      match rest with
      | [] => .ok out
      | _ :: rest2 => gciLoop toolID targetKeys inputMap rest2 out
    else
      let val : JValue :=
        if goStartsWith field "$" then
          let key := goTrimSuf (goTrimPre (goTrimPre field "$") "\x7b") "\x7d"
          (alookup inputMap key).getD .null
        else .str field
      let keyNameE : Except String String :=
        match rest with
        | "as" :: [] => .error "panic: runtime error: index out of range"
        | "as" :: aliasTok :: _ => .ok (goToLower aliasTok)
        | _ => .ok ""
      match keyNameE with
      | .error e => .error e
      | .ok keyName =>
        if targetKeys.length = 0 then
          .error ("can not assign arg to context because target tool [" ++ toolID ++
            "] has no defined args")
        else if keyName = "" ∧ targetKeys.length ≠ 1 then
          .error ("can not assign arg to context because target tool [" ++ toolID ++
            "] has does not have one args. You must use \"as\" syntax to map the arg to a key")
        else
          let kn := if keyName = "" then (targetKeys.headD ("", "")).1 else keyName
          match alookup targetKeys (goToLower kn) with
          | some targetKey => gciLoop toolID targetKeys inputMap rest (ainsert out targetKey val)
          | none =>
            .error ("can not assign arg to context because target tool [" ++ toolID ++
              "] has does not args [" ++ kn ++ "]")

/-- `getContextInput` (runner.go lines 235-312).  `decode` is the
`encoding/json` unmarshalling of the parent input into a `map[string]any`
(the Go code ignores its error, leaving the empty map). -/
def getContextInput (decode : String → List (String × JValue)) (prg : Program)
    (ref : ToolReference) (input : String) : Except String String :=
  if ref.Arg = "" then .ok ""
  else
    match (prg.toolGet ref.ToolID).Arguments with
    | none => .ok ""
    | some props =>
      let targetKeys := props.foldl (fun acc k => ainsert acc (goToLower k) k) []
      let inputMap := decode input
      match gciLoop ref.ToolID targetKeys inputMap (goFields ref.Arg) [] with
      | .error e => .error e
      | .ok out => if out = [] then .ok "" else .ok (renderObj out)

/-- The Go literal `&State{Continuation: &ret}` (used by `start`). -/
def State.ofContinuation (ret : Return) : State :=
  .mk (some ret) "" none none [] "" [] none "" none false

/-- The Go literal `&State{Result: &r}` (the non-Chat terminal of `resume`). -/
def State.ofResult (r : String) : State :=
  .mk none "" (some r) none [] "" [] none "" none false

/-- The Go literal `&State{Continuation: c, ContinuationToolID: toolID}` (the
Chat terminal of `resume`). -/
def State.chatContinuation (ret : Return) (toolID : String) : State :=
  .mk (some ret) toolID none none [] "" [] none "" none false

/-- The Go literal `&State{Continuation: c, SubCalls: rs, SubCallID: id}` (the
sub-call suspension of `resume`). -/
def State.subCallSuspension (c : Option Return) (rs : List SubCallResult) (id : String) : State :=
  .mk c "" none none rs id [] none "" none false

/-- The Go literal `&State{Continuation: next, SubCalls: callResults}` (the
next loop state of `resume`). -/
def State.nextTurn (next : Return) (rs : List SubCallResult) : State :=
  .mk (some next) "" none none rs "" [] none "" none false

/-- The conversion of completed sub-call `State`s into `engine.CallResult`s
(runner.go lines 575-590): the first child still carrying a continuation wins
and yields its call id (`inr`), otherwise the list of results (`inl`). -/
def buildEngineResults : List SubCallResult → Except RErr (Sum (List CallResult) String)
  | [] => .ok (.inl [])
  | .mk toolId callId st :: rest =>
    match st with
    | none => .error (.panicked "nil SubCallResult.State")
    | some s =>
      match s.Continuation with
      | some _ => .ok (.inr callId)
      | none =>
        match s.Result with
        | none => .error (.panicked "nil State.Result")
        | some r =>
          match buildEngineResults rest with
          | .error e => .error e
          | .ok (.inl results) =>
            .ok (.inl ({ ToolID := toolId, CallID := callId, Result := r } :: results))
          | .ok (.inr scid) => .ok (.inr scid)

mutual

/-- `Runner.call` (runner.go lines 375-384): `start`, return immediately on
`StartContinuation`, else `resume`. -/
def interpCall (fuel : Nat) (x : Externals) (ctx : Context) (env : List String)
    (input : String) (w : W) : Except RErr (State × W) :=
  match fuel with
  | 0 => .error .outOfFuel
  | n + 1 =>
    match interpStart n x ctx none env input w with
    | .error e => .error e
    | .ok (result, w) =>
      if result.StartContinuation then .ok (result, w)
      else interpResume n x ctx env result w
termination_by structural fuel

/-- `Runner.start` (runner.go lines 386-452): emit `callStart`, acquire
credentials, resolve context (yielding early with `StartContinuation` on a
context suspension), consult the authorizer for unsafe command tools, then
invoke `engine.Start`. -/
def interpStart (fuel : Nat) (x : Externals) (ctx : Context) (st? : Option State)
    (env : List String) (input : String) (w : W) : Except RErr (State × W) :=
  match fuel with
  | 0 => .error .outOfFuel
  | n + 1 =>
    let w := w.emit { EType := .callStart, Content := input }
    match (if ctx.Tool.Credentials ≠ [] then interpHandleCredentials n x ctx env w
           else .ok (env, w)) with
    | .error e => .error e
    | .ok (env, w) =>
      match interpGetContext n x ctx st? env input w with
      | .error e => .error e
      | .ok ((inputContext, newState), w) =>
        let rest : W → Except RErr (State × W) := fun w =>
          let ctx2 := { ctx with InputContext := inputContext }
          let engineGo : W → Except RErr (State × W) := fun w =>
            let w := { w with engineStarts := w.engineStarts ++ [(ctx.Tool.ID, input)] }
            match x.engineStart ctx2 input with
            | .error e => .error e
            | .ok ret => .ok (State.ofContinuation ret, w)
          if ctx.Tool.isCommand && !(x.safeTools.contains ctx.Tool.ID) then
            match x.auth ctx2 input with
            | .error e => .error e
            | .ok authResp =>
              if authResp.Accept then engineGo w
              else
                .ok (State.ofContinuation
                  { Result := some ("[AUTHORIZATION ERROR]: " ++ authResp.Message) }, w)
          else engineGo w
        match newState with
        | some ns =>
          if ns.InputContextContinuation.isSome then .ok (ns.setStartContinuation true, w)
          else rest w
        | none => rest w
termination_by structural fuel

/-- `Runner.resume` (runner.go lines 514-532): reject `StartContinuation` and
missing-`Continuation` states, acquire credentials, then enter the loop. -/
def interpResume (fuel : Nat) (x : Externals) (ctx : Context) (env : List String)
    (state : State) (w : W) : Except RErr (State × W) :=
  match fuel with
  | 0 => .error .outOfFuel
  | n + 1 =>
    if state.StartContinuation then
      .error (.msg "invalid state, resume should not have StartContinuation set to true")
    else if state.Continuation.isNone then
      .error (.msg "invalid state, resume should have Continuation data")
    else
      match (if ctx.Tool.Credentials ≠ [] then interpHandleCredentials n x ctx env w
             else .ok (env, w)) with
      | .error e => .error e
      | .ok (env, w) => resumeLoop n x ctx env state w
termination_by structural fuel

/-- The `for` loop of `Runner.resume` (runner.go lines 534-634): terminal
check and `callFinish`, `callSubCalls`, sub-call dispatch, `ErrChatFinish`
interception for Chat tools, `callContinue`, context re-resolution, the
synthetic user `CallResult` from `ResumeInput`, and `engine.Continue`.  On the
intercepted `ErrChatFinish` the trace events of the failed dispatch are not
recorded (the model drops the trace of error paths). -/
def resumeLoop (fuel : Nat) (x : Externals) (ctx : Context) (env : List String)
    (state : State) (w : W) : Except RErr (State × W) :=
  match fuel with
  | 0 => .error .outOfFuel
  | n + 1 =>
    match state.Continuation with
    | none => .error (.panicked "nil Continuation in resume loop")
    | some c =>
      if c.Result.isSome ∧ c.Calls = [] ∧ state.SubCallID = "" ∧ state.ResumeInput = none then
        let r := c.Result.getD ""
        let w := w.emit { EType := .callFinish, Content := r }
        if ctx.Tool.Chat then .ok (State.chatContinuation c ctx.Tool.ID, w)
        else .ok (State.ofResult r, w)
      else
        let w := w.emit { EType := .callSubCalls, ToolSubCalls := c.Calls }
        match interpSubCalls n x ctx env state ctx.ToolCategory w with
        | .error (.chatFinish m) =>
          if ctx.Tool.Chat then .ok (State.ofResult m, w) else .error (.chatFinish m)
        | .error e => .error e
        | .ok ((state1, callResults), w) =>
          match buildEngineResults callResults with
          | .error e => .error e
          | .ok (.inr scid) => .ok (State.subCallSuspension state1.Continuation callResults scid, w)
          | .ok (.inl engineResults) =>
            let w := w.emit { EType := .callContinue, ToolResults := callResults.length }
            let contentInput :=
              match state1.Continuation with
              | some c1 => match c1.State with | some es => es.Input | none => ""
              | none => ""
            match interpGetContext n x ctx (some state1) env contentInput w with
            | .error e => .error e
            | .ok ((inputContext, newState), w) =>
              match newState with
              | none => .error (.panicked "nil state after getContext in resume")
              | some state2 =>
                if state2.InputContextContinuation.isSome then .ok (state2, w)
                else
                  let engineResults :=
                    match state2.ResumeInput with
                    | some ri => engineResults ++ [{ User := ri }]
                    | none => engineResults
                  let ctx2 := { ctx with InputContext := inputContext }
                  match state2.Continuation with
                  | none => .error (.panicked "nil Continuation before Continue")
                  | some c2 =>
                    let w := { w with continues := w.continues ++ [engineResults] }
                    match x.engineContinue ctx2 c2.State engineResults with
                    | .error e => .error e
                    | .ok next => resumeLoop n x ctx env (State.nextTurn next callResults) w
termination_by structural fuel

/-- `Runner.subCalls` (runner.go lines 708-750 head): pass a pending context
continuation through unchanged; on a set `SubCallID` require `ResumeInput` and
resume the matching roster entry; otherwise fan out the continuation's calls
in sorted call-id order. -/
def interpSubCalls (fuel : Nat) (x : Externals) (ctx : Context) (env : List String)
    (state : State) (category : ToolCategory) (w : W) :
    Except RErr ((State × List SubCallResult) × W) :=
  match fuel with
  | 0 => .error .outOfFuel
  | n + 1 =>
    let ctxL := if state.Continuation.isSome then { ctx with LastReturn := state.Continuation }
                else ctx
    if state.InputContextContinuation.isSome then .ok ((state, []), w)
    else if state.SubCallID ≠ "" then
      if state.ResumeInput = none then
        .error (.msg ("invalid state, input must be set for sub call continuation on callID [" ++
          state.SubCallID ++ "]"))
      else subCallsMatch n x ctxL env category state.SubCallID state.SubCalls state [] false w
    else
      match state.Continuation with
      | none => .error (.panicked "nil Continuation in subCalls")
      | some c =>
        let ids := List.insertionSort strLeProp (c.Calls.map Prod.fst)
        subCallsFan n x ctxL env category c.Calls ids state [] w
termination_by structural fuel

/-- The `SubCallID` branch of `subCalls` (runner.go lines 721-750): resume the
matching entry with the carried `ResumeInput` (then clear it), keep the other
siblings verbatim, and fail if no entry matched. -/
def subCallsMatch (fuel : Nat) (x : Externals) (ctx : Context) (env : List String)
    (category : ToolCategory) (scid : String) (entries : List SubCallResult) (state : State)
    (acc : List SubCallResult) (found : Bool) (w : W) :
    Except RErr ((State × List SubCallResult) × W) :=
  match fuel with
  | 0 => .error .outOfFuel
  | n + 1 =>
    match entries with
    | [] =>
      if found then .ok ((state, acc), w)
      else .error (.msg ("invalid state, failed to find subCall for subCallID [" ++ scid ++ "]"))
    | e :: rest =>
      if e.callId = scid then
        match e.state with
        | none => .error (.panicked "nil SubCallResult.State")
        | some subSt =>
          match interpSubCallResume n x ctx env e.toolId e.callId
              (subSt.withResumeInput state.ResumeInput) category w with
          | .error er => .error er
          | .ok (result, w) =>
            subCallsMatch n x ctx env category scid rest (state.withResumeInput none)
              (acc ++ [SubCallResult.mk e.toolId e.callId (some result)]) true w
      else subCallsMatch n x ctx env category scid rest state (acc ++ [e]) found w
termination_by structural fuel

/-- The fresh fanout of `subCalls` (runner.go lines 752-783), on the serial
dispatcher: run each call in sorted call-id order, accumulating
`SubCallResult`s in submission order and stopping at the first error. -/
def subCallsFan (fuel : Nat) (x : Externals) (ctx : Context) (env : List String)
    (category : ToolCategory) (calls : List (String × Call)) (ids : List String)
    (state : State) (acc : List SubCallResult) (w : W) :
    Except RErr ((State × List SubCallResult) × W) :=
  match fuel with
  | 0 => .error .outOfFuel
  | n + 1 =>
    match ids with
    | [] => .ok ((state, acc), w)
    | id :: restIds =>
      let call := (alookup calls id).getD {}
      match interpSubCall n x ctx env call.ToolID call.Input id category w with
      | .error e => .error e
      | .ok (result, w) =>
        subCallsFan n x ctx env category calls restIds state
          (acc ++ [SubCallResult.mk call.ToolID id (some result)]) w
termination_by structural fuel

/-- `Runner.getContext` (runner.go lines 314-373): copy the prior state,
unpacking a pending `InputContextContinuation` (restoring its original input
and carried resume input), then walk the tool's context references. -/
def interpGetContext (fuel : Nat) (x : Externals) (ctx : Context) (st? : Option State)
    (env : List String) (input : String) (w : W) :
    Except RErr ((List InputContext × Option State) × W) :=
  match fuel with
  | 0 => .error .outOfFuel
  | n + 1 =>
    let toolRefs := (alookup x.prg.contextRefs ctx.Tool.ID).getD []
    match st? with
    | none => getContextLoop n x ctx none none env input 0 toolRefs [] w
    | some s =>
      match s.InputContextContinuation with
      | some _ =>
        let ns := s.clearContextContinuation s.InputContextContinuationResumeInput
        getContextLoop n x ctx (some s) (some ns) env s.InputContextContinuationInput 0 toolRefs [] w
      | none => getContextLoop n x ctx (some s) (some s) env input 0 toolRefs [] w
termination_by structural fuel

/-- The reference loop of `getContext` (runner.go lines 334-370): reuse
already-collected `InputContexts`, resume a pending context continuation or
invoke the context tool, and on a child continuation suspend with the
collected results and original input. -/
def getContextLoop (fuel : Nat) (x : Externals) (ctx : Context) (orig : Option State)
    (newState : Option State) (env : List String) (input : String) (i : Nat)
    (refs : List ToolReference) (acc : List InputContext) (w : W) :
    Except RErr ((List InputContext × Option State) × W) :=
  match fuel with
  | 0 => .error .outOfFuel
  | n + 1 =>
    match refs with
    | [] => .ok ((acc, newState), w)
    | ref :: rest =>
      let stored : Bool := match orig with
        | some s => decide (i < s.InputContexts.length)
        | none => false
      if stored then
        let item := ((orig.getD State.zero).InputContexts).getD i {}
        getContextLoop n x ctx orig newState env input (i + 1) rest (acc ++ [item]) w
      else
        match getContextInput x.jsonDecodeObj x.prg ref input with
        | .error e => .error (.msg e)
        | .ok contextInput =>
          match (match orig with
                 | some s =>
                   match s.InputContextContinuation with
                   | some icc =>
                     interpSubCallResume n x ctx env ref.ToolID ""
                       (icc.withResumeInput s.ResumeInput) .context w
                   | none => interpSubCall n x ctx env ref.ToolID contextInput "" .context w
                 | none => interpSubCall n x ctx env ref.ToolID contextInput "" .context w) with
          | .error e => .error e
          | .ok (content, w) =>
            if content.Continuation.isSome then
              let base := (newState.getD State.zero).setContextContinuation acc content input
              let ns := match orig with
                | some s => base.setICCResumeInput s.ResumeInput
                | none => base
              .ok (([], some ns), w)
            else
              match content.Result with
              | none => .error (.panicked "nil State.Result in getContext")
              | some r =>
                getContextLoop n x ctx orig newState env input (i + 1) rest
                  (acc ++ [{ ToolID := ref.ToolID, Content := r }]) w
termination_by structural fuel

/-- `Runner.subCall` (runner.go lines 677-684): build the child frame and run
`call`.  (Fresh call-id assignment for an empty `callID` happens inside the
engine and is not observable here.) -/
def interpSubCall (fuel : Nat) (x : Externals) (_parentCtx : Context) (env : List String)
    (toolID : String) (input : String) (_callID : String) (category : ToolCategory) (w : W) :
    Except RErr (State × W) :=
  match fuel with
  | 0 => .error .outOfFuel
  | n + 1 =>
    match x.prg.subCallCtx toolID category with
    | .error e => .error e
    | .ok callCtx => interpCall n x callCtx env input w
termination_by structural fuel

/-- `Runner.subCallResume` (runner.go lines 686-693): build the child frame
and run `resume` on the stored child state. -/
def interpSubCallResume (fuel : Nat) (x : Externals) (_parentCtx : Context) (env : List String)
    (toolID : String) (_callID : String) (state : State) (category : ToolCategory) (w : W) :
    Except RErr (State × W) :=
  match fuel with
  | 0 => .error .outOfFuel
  | n + 1 =>
    match x.prg.subCallCtx toolID category with
    | .error e => .error e
    | .ok callCtx => interpResume n x callCtx env state w
termination_by structural fuel

/-- `Runner.handleCredentials` (runner.go lines 785-893).  The CLI-config read
and store construction always succeed in the model; the per-Runner mutex is
invisible to the serial embedding. -/
def interpHandleCredentials (fuel : Nat) (x : Externals) (ctx : Context) (env : List String)
    (w : W) : Except RErr (List String × W) :=
  match fuel with
  | 0 => .error .outOfFuel
  | n + 1 => credLoop n x ctx ctx.Tool.Credentials env w
termination_by structural fuel

/-- The credential-name loop of `handleCredentials` (runner.go lines 810-890):
apply overrides, look up GitHub tools in the store, and on a miss run the
credential tool, decode its `{"env": ...}` result, store it only for GitHub
tools whose source has a `Repo` and whose env has a non-empty value, and
append the env entries either way.  (`store.Add` is modelled as always
succeeding; the skipped-persistence warnings are logs, not trace events.) -/
def credLoop (fuel : Nat) (x : Externals) (ctx : Context) (names : List String)
    (env : List String) (w : W) : Except RErr (List String × W) :=
  match fuel with
  | 0 => .error .outOfFuel
  | n + 1 =>
    match names with
    | [] => .ok (env, w)
    | name :: rest =>
      match alookup x.credOverrides name with
      | some kvs =>
        credLoop n x ctx rest (env ++ kvs.map (fun kv => kv.1 ++ "=" ++ kv.2)) w
      | none =>
        match (if isGitHubTool name then
                 match x.storeGet name with
                 | .error _ => .error (.msg ("failed to get credentials for tool " ++ name))
                 | .ok c => .ok c
               else (.ok none : Except RErr (Option Credential))) with
        | .error e => .error e
        | .ok (some cred) =>
          credLoop n x ctx rest (env ++ cred.Env.map (fun kv => kv.1 ++ "=" ++ kv.2)) w
        | .ok none =>
          match alookup ctx.Tool.ToolMapping name with
          | none => .error (.msg ("failed to find ID for tool " ++ name))
          | some credToolRefs =>
            if credToolRefs.length ≠ 1 then .error (.msg ("failed to find ID for tool " ++ name))
            else
              let ref0 := credToolRefs.headD {}
              match x.prg.subCallCtx ref0.ToolID .credential with
              | .error _ => .error (.msg ("failed to create subcall context for tool " ++ name))
              | .ok subCtx =>
                match interpCall n x subCtx env "" w with
                | .error e => .error e
                | .ok (res, w) =>
                  match res.Result with
                  | none =>
                    .error (.msg ("invalid state: credential tool [" ++ name ++
                      "] can not result in a continuation"))
                  | some r =>
                    match x.jsonDecodeEnvMap r with
                    | .error _ =>
                      .error (.msg ("failed to unmarshal credential tool " ++ name ++ " response"))
                    | .ok envMap =>
                      let cred : Credential := { ToolName := name, Env := envMap }
                      let isEmpty := envMap.all (fun kv => kv.2 = "")
                      let w :=
                        if isGitHubTool name ∧ (x.prg.toolGet ref0.ToolID).SourceRepo ≠ none then
                          if isEmpty then w
                          else { w with adds := w.adds ++ [cred] }
                        else w
                      credLoop n x ctx rest
                        (env ++ envMap.map (fun kv => kv.1 ++ "=" ++ kv.2)) w
termination_by structural fuel

end

/-- The dynamic shapes `Chat` accepts for `prevState`: nil, a live `*State`,
a JSON string, or (`other`) a value of any other dynamic type, carrying the
printed type name Go's `%T` would show. -/
inductive ChatState where
  | nil
  | ofState (s : State)
  | ofString (s : String)
  | other (typeName : String)

/-- `runner.ChatResponse` (the `State` payload is the live state, `none` on a
Done response). -/
structure ChatResponse where
  Done : Bool := false
  Content : String := ""
  ToolID : String := ""
  RState : Option State := none

/-- Rendering of a runner error for wrapped (`%w`) error messages. -/
def rerrText : RErr → String
  | .msg s => s
  | .chatFinish m => "chat finish: " ++ m
  | .panicked s => s
  | .outOfFuel => "out of fuel"

/-- `Runner.Chat` (runner.go lines 127-198): decode `prevState` (nil, live
`*State`, or JSON string with `"null"` as nil; anything else is a typed
error), then route to `start` (on nil or `StartContinuation`, injecting the
new input as `ResumeInput` and switching to the carried
`InputContextContinuationInput`) or stamp `ResumeInput` and `resume`; package
a `Result` as Done, otherwise the deepest continuation content and tool id. -/
def interpChat (fuel : Nat) (x : Externals) (prevState : ChatState) (env : List String)
    (input : String) (w : W) : Except RErr (ChatResponse × W) :=
  let stE : Except RErr (Option State) :=
    match prevState with
    | .nil => .ok none
    | .ofState v => .ok (some v)
    | .ofString v =>
      if v = "null" then .ok none
      else
        match x.jsonDecodeState v with
        | .error e => .error (.msg ("failed to unmarshal chat state: " ++ rerrText e))
        | .ok st => .ok (some st)
    | .other typeName => .error (.msg ("invalid type for state object: " ++ typeName))
  match stE with
  | .error e => .error e
  | .ok state? =>
    let callCtx := x.prg.newContext
    let startedE : Except RErr (State × W) :=
      match state? with
      | none => interpStart fuel x callCtx none env input w
      | some s =>
        if s.StartContinuation then
          interpStart fuel x callCtx (some (s.withResumeInput (some input))) env
            s.InputContextContinuationInput w
        else .ok (s.withResumeInput (some input), w)
    match startedE with
    | .error e => .error e
    | .ok (state1, w) =>
      let resumedE : Except RErr (State × W) :=
        if state1.StartContinuation then .ok (state1, w)
        else interpResume fuel x callCtx env state1 w
      match resumedE with
      | .error e => .error e
      | .ok (state2, w) =>
        match state2.Result with
        | some r => .ok ({ Done := true, Content := r }, w)
        | none =>
          match state2.ContinuationContent with
          | .error e => .error e
          | .ok content =>
            match state2.ContinuationContentToolID with
            | .error e => .error e
            | .ok toolID =>
              .ok ({ Done := false, Content := content, ToolID := toolID,
                     RState := some state2 }, w)

/-- `Runner.Run` (runner.go lines 200-206): `Chat` with nil `prevState`,
surfacing only the content. -/
def interpRun (fuel : Nat) (x : Externals) (env : List String) (input : String) (w : W) :
    Except RErr (String × W) :=
  match interpChat fuel x .nil env input w with
  | .error e => .error e
  | .ok (resp, w) => .ok (resp.Content, w)

/-! JSON serialization of `State` (the struct tags of runner.go lines
454-468, all `omitempty`), at the level of JSON trees.  The helper types
`engine.Return`, `engine.Call`, `engine.State` and `engine.InputContext` are
serialized by the engine package (not under src/); their codecs are modelled
from the spec's field lists. -/

/-- A JSON tree. -/
inductive Json where
  | null
  | bool (b : Bool)
  | num (n : Nat)
  | str (s : String)
  | arr (xs : List Json)
  | obj (fields : List (String × Json))

/-- A JSON object field, present iff the value is `some` (`omitempty`). -/
def jf (k : String) : Option Json → List (String × Json)
  | none => []
  | some v => [(k, v)]

/-- `omitempty` on a string: omitted when empty. -/
def strOmit (s : String) : Option Json :=
  if s = "" then none else some (.str s)

/-- `omitempty` on a `*string`: omitted when nil. -/
def optStrOmit : Option String → Option Json
  | none => none
  | some s => some (.str s)

/-- `omitempty` on a bool: omitted when false. -/
def boolOmit (b : Bool) : Option Json :=
  if b then some (.bool true) else none

/-- `omitempty` on a slice: omitted when empty. -/
def listOmit (xs : List Json) : Option Json :=
  if xs.isEmpty then none else some (.arr xs)

/-- Read an object field; a missing field reads as `null` (both leave the Go
zero value in place on unmarshalling). -/
def jget (o : List (String × Json)) (k : String) : Json :=
  (alookup o k).getD .null

/-- Unmarshal into a string: null / missing leaves "". -/
def jAsStr : Json → Except String String
  | .null => .ok ""
  | .str s => .ok s
  | _ => .error "cannot unmarshal into string"

/-- Unmarshal into a `*string`: null / missing leaves nil. -/
def jAsOptStr : Json → Except String (Option String)
  | .null => .ok none
  | .str s => .ok (some s)
  | _ => .error "cannot unmarshal into *string"

/-- Unmarshal into a bool. -/
def jAsBool : Json → Except String Bool
  | .null => .ok false
  | .bool b => .ok b
  | _ => .error "cannot unmarshal into bool"

/-- Unmarshal into an integer. -/
def jAsNat : Json → Except String Nat
  | .null => .ok 0
  | .num n => .ok n
  | _ => .error "cannot unmarshal into int"

/-- Modelled from the spec: serialization of the opaque `engine.State`. -/
def EngState.toJson (s : EngState) : Json :=
  .obj (jf "input" (strOmit s.Input) ++ jf "tag" (some (.num s.tag)))

/-- Modelled from the spec: deserialization of the opaque `engine.State`. -/
def EngState.fromJson : Json → Except String EngState
  | .obj o => do
    let i ← jAsStr (jget o "input")
    let t ← jAsNat (jget o "tag")
    .ok { Input := i, tag := t }
  | _ => .error "cannot unmarshal engine.State"

/-- Modelled from the spec: serialization of `engine.Call`. -/
def Call.toJson (c : Call) : Json :=
  .obj (jf "toolID" (strOmit c.ToolID) ++ jf "input" (strOmit c.Input))

/-- Modelled from the spec: deserialization of `engine.Call`. -/
def Call.fromJson : Json → Except String Call
  | .obj o => do
    let t ← jAsStr (jget o "toolID")
    let i ← jAsStr (jget o "input")
    .ok { ToolID := t, Input := i }
  | _ => .error "cannot unmarshal engine.Call"

/-- The `Calls` map as a JSON object. -/
def callsToJson (calls : List (String × Call)) : List (String × Json) :=
  calls.map (fun kv => (kv.1, Call.toJson kv.2))

/-- Deserialize the `Calls` map fields. -/
def callsFromJson : List (String × Json) → Except String (List (String × Call))
  | [] => .ok []
  | (k, v) :: rest => do
    let c ← Call.fromJson v
    let cs ← callsFromJson rest
    .ok ((k, c) :: cs)

/-- Unmarshal the `Calls` map: null / missing leaves the empty map. -/
def jAsCallsMap : Json → Except String (List (String × Call))
  | .null => .ok []
  | .obj o => callsFromJson o
  | _ => .error "cannot unmarshal Calls"

/-- Modelled from the spec: serialization of `engine.Return`, the
continuation. -/
def Return.toJson (r : Return) : Json :=
  .obj (jf "result" (optStrOmit r.Result) ++
    jf "calls" (if r.Calls.isEmpty then none else some (.obj (callsToJson r.Calls))) ++
    jf "state" (match r.State with | none => none | some es => some es.toJson))

/-- Unmarshal an optional `engine.State`: null / missing leaves nil. -/
def jAsOptEngState : Json → Except String (Option EngState)
  | .null => .ok none
  | j => (EngState.fromJson j).map some

/-- Modelled from the spec: deserialization of `engine.Return`. -/
def Return.fromJson : Json → Except String Return
  | .obj o => do
    let res ← jAsOptStr (jget o "result")
    let calls ← jAsCallsMap (jget o "calls")
    let st ← jAsOptEngState (jget o "state")
    .ok { Result := res, Calls := calls, State := st }
  | _ => .error "cannot unmarshal engine.Return"

/-- Unmarshal an optional continuation: null / missing leaves nil. -/
def jAsOptRet : Json → Except String (Option Return)
  | .null => .ok none
  | j => (Return.fromJson j).map some

/-- Modelled from the spec: serialization of `engine.InputContext`. -/
def InputContext.toJson (ic : InputContext) : Json :=
  .obj (jf "toolID" (strOmit ic.ToolID) ++ jf "content" (strOmit ic.Content))

/-- Modelled from the spec: deserialization of `engine.InputContext`. -/
def InputContext.fromJson : Json → Except String InputContext
  | .obj o => do
    let t ← jAsStr (jget o "toolID")
    let c ← jAsStr (jget o "content")
    .ok { ToolID := t, Content := c }
  | _ => .error "cannot unmarshal engine.InputContext"

/-- Serialize an `InputContexts` slice. -/
def icsToJson (l : List InputContext) : List Json :=
  l.map InputContext.toJson

/-- Deserialize an `InputContexts` slice. -/
def icsFromJson : List Json → Except String (List InputContext)
  | [] => .ok []
  | j :: rest => do
    let ic ← InputContext.fromJson j
    let ics ← icsFromJson rest
    .ok (ic :: ics)

/-- Unmarshal the `InputContexts` slice: null / missing leaves nil. -/
def jAsICList : Json → Except String (List InputContext)
  | .null => .ok []
  | .arr xs => icsFromJson xs
  | _ => .error "cannot unmarshal InputContexts"

mutual

/-- `json.Marshal` of `runner.State` over its struct tags (runner.go lines
454-468): every field `omitempty`. -/
def State.toJson : State → Json
  | .mk c ctid r ri subs scid ics icc icci iccri stc =>
    .obj (jf "continuation" (c.map Return.toJson) ++
      jf "continuationToolID" (strOmit ctid) ++
      jf "result" (optStrOmit r) ++
      jf "resumeInput" (optStrOmit ri) ++
      jf "subCalls" (listOmit (subsToJson subs)) ++
      jf "subCallID" (strOmit scid) ++
      jf "inputContexts" (listOmit (icsToJson ics)) ++
      jf "inputContextContinuation" (optStateToJson icc) ++
      jf "inputContextContinuationInput" (strOmit icci) ++
      jf "inputContextContinuationResumeInput" (optStrOmit iccri) ++
      jf "startContinuation" (boolOmit stc))
termination_by s => sizeOf s

/-- Marshal an optional nested `State` (`omitempty`: a nil pointer is left
out, which the `jf` emitter takes as an absent field). -/
def optStateToJson : Option State → Option Json
  | none => none
  | some s => some s.toJson
termination_by o => sizeOf o

/-- `json.Marshal` of `runner.SubCallResult` over its struct tags. -/
def SubCallResult.toJson : SubCallResult → Json
  | .mk t c st =>
    .obj (jf "toolId" (strOmit t) ++ jf "callId" (strOmit c) ++
      jf "state" (optStateToJson st))
termination_by e => sizeOf e

/-- Serialize the `SubCalls` roster. -/
def subsToJson : List SubCallResult → List Json
  | [] => []
  | e :: rest => e.toJson :: subsToJson rest
termination_by l => sizeOf l

end

/-- Object field access returns a strictly smaller JSON tree (or `null`),
justifying termination of the recursive decoder. -/
theorem jget_sizeOf_lt (o : List (String × Json)) (k : String) :
    sizeOf (jget o k) < 1 + sizeOf o := by
  induction o with
  | nil => simp [jget, alookup]
  | cons p rest ih =>
    obtain ⟨pk, pv⟩ := p
    by_cases hk : pk = k
    · simp [jget, alookup, hk]
      omega
    · simp only [jget, alookup, hk, if_false, ite_false] at ih ⊢
      simp only [List.cons.sizeOf_spec, Prod.mk.sizeOf_spec]
      omega

mutual

/-- `json.Unmarshal` into `runner.State` over its struct tags: a missing or
null field leaves the zero value, a mistyped field fails. -/
def State.fromJson : Json → Except String State
  | .obj o => do
    let c ← jAsOptRet (jget o "continuation")
    let ctid ← jAsStr (jget o "continuationToolID")
    let r ← jAsOptStr (jget o "result")
    let ri ← jAsOptStr (jget o "resumeInput")
    let subs ← jAsSubsList (jget o "subCalls")
    let scid ← jAsStr (jget o "subCallID")
    let ics ← jAsICList (jget o "inputContexts")
    let icc ← jAsOptState (jget o "inputContextContinuation")
    let icci ← jAsStr (jget o "inputContextContinuationInput")
    let iccri ← jAsOptStr (jget o "inputContextContinuationResumeInput")
    let stc ← jAsBool (jget o "startContinuation")
    .ok (State.mk c ctid r ri subs scid ics icc icci iccri stc)
  | _ => .error "cannot unmarshal State"
termination_by j => 2 * sizeOf j
decreasing_by
  all_goals simp_wf
  · have hb := jget_sizeOf_lt o "subCalls"
    simp at hb ⊢
    omega
  · have hb := jget_sizeOf_lt o "inputContextContinuation"
    simp at hb ⊢
    omega

/-- Unmarshal an optional nested `State`: null / missing leaves nil. -/
def jAsOptState : Json → Except String (Option State)
  | .null => .ok none
  | j => (State.fromJson j).map some
termination_by j => 2 * sizeOf j + 1
decreasing_by
  all_goals simp_wf

/-- Unmarshal the `SubCalls` roster field: null / missing leaves nil. -/
def jAsSubsList : Json → Except String (List SubCallResult)
  | .null => .ok []
  | .arr xs => subsFromJson xs
  | _ => .error "cannot unmarshal SubCalls"
termination_by j => 2 * sizeOf j + 1
decreasing_by
  all_goals simp_wf
  all_goals omega

/-- `json.Unmarshal` into `runner.SubCallResult`. -/
def SubCallResult.fromJson : Json → Except String SubCallResult
  | .obj o => do
    let t ← jAsStr (jget o "toolId")
    let c ← jAsStr (jget o "callId")
    let st ← jAsOptState (jget o "state")
    .ok (SubCallResult.mk t c st)
  | _ => .error "cannot unmarshal SubCallResult"
termination_by j => 2 * sizeOf j
decreasing_by
  all_goals simp_wf
  · have hb := jget_sizeOf_lt o "state"
    simp at hb ⊢
    omega

/-- Deserialize the `SubCalls` roster. -/
def subsFromJson : List Json → Except String (List SubCallResult)
  | [] => .ok []
  | j :: rest => do
    let e ← SubCallResult.fromJson j
    let es ← subsFromJson rest
    .ok (e :: es)
termination_by l => 2 * sizeOf l
decreasing_by
  all_goals simp_wf
  all_goals omega

end

/-- Decidable equality of `Except` results, so concrete runs can be checked
by `decide`. -/
instance exceptDecEq {ε α : Type} [DecidableEq ε] [DecidableEq α] : DecidableEq (Except ε α)
  | .error e, .error e' =>
    if h : e = e' then .isTrue (by rw [h]) else .isFalse (by simp [h])
  | .error _, .ok _ => .isFalse (by simp)
  | .ok _, .error _ => .isFalse (by simp)
  | .ok a, .ok a' =>
    if h : a = a' then .isTrue (by rw [h]) else .isFalse (by simp [h])

/-! Concrete scenarios used by witnesses and counterexamples. -/

/-- A minimal collaborator record whose engine is never expected to run. -/
def egTrivial : Externals :=
  { prg := {},
    engineStart := fun _ _ => .error (.msg "engine must not run"),
    engineContinue := fun _ _ _ => .error (.msg "engine must not run") }

/-- The sequential-fanout scenario of the spec: the parent P returns
`Calls = \x7b"b": (B, "x"), "a": (A, "y")\x7d`, A yields "alpha" and B yields
"beta", and the next `Continue` terminates with "done". -/
def egSequential : Externals :=
  { prg := { ToolSet := [("P", { ID := "P" }), ("A", { ID := "A" }), ("B", { ID := "B" })],
             EntryToolID := "P" },
    engineStart := fun ctx _ =>
      if ctx.Tool.ID = "P" then
        .ok { Calls := [("b", { ToolID := "B", Input := "x" }),
                        ("a", { ToolID := "A", Input := "y" })],
              State := some { Input := "pin" } }
      else if ctx.Tool.ID = "A" then .ok { Result := some "alpha" }
      else .ok { Result := some "beta" },
    engineContinue := fun _ _ _ => .ok { Result := some "done" } }

/-- The authorizer-rejection scenario of the spec: one command tool, not
safe-listed, authorizer answers `\x7bAccept: false, Message: "no"\x7d`. -/
def egAuthReject : Externals :=
  { prg := { ToolSet := [("T", { ID := "T", isCommand := true })], EntryToolID := "T" },
    auth := fun _ _ => .ok { Accept := false, Message := "no" },
    engineStart := fun _ _ => .error (.msg "engine must not run"),
    engineContinue := fun _ _ _ => .error (.msg "engine must not run") }

/-- The chat round-trip scenario of the spec: a Chat tool whose first turn
returns terminal content "?". -/
def egChatTerminal : Externals :=
  { prg := { ToolSet := [("T", { ID := "T", Chat := true })], EntryToolID := "T" },
    engineStart := fun _ _ => .ok { Result := some "?" },
    engineContinue := fun _ _ _ => .ok { Result := some "bye" } }

/-- The credential scenario of the spec: tool T declares the GitHub
credential tool, mapped to C, whose run returns a JSON env map. -/
def egCredentialPrg : Program :=
  { ToolSet :=
      [("T", { ID := "T", Credentials := ["github.com/org/cred"],
               ToolMapping := [("github.com/org/cred", [{ ToolID := "C" }])] }),
       ("C", { ID := "C", SourceRepo := some "github.com/org" })],
    EntryToolID := "T" }

/-- The credential scenario's collaborators. -/
def egCredential : Externals :=
  { prg := egCredentialPrg,
    engineStart := fun ctx _ =>
      if ctx.Tool.ID = "C" then .ok { Result := some "credjson" }
      else .ok { Result := some "final" },
    engineContinue := fun _ _ _ => .ok { Result := some "final" },
    jsonDecodeEnvMap := fun s =>
      if s = "credjson" then .ok [("K", "v")] else .error (.msg "bad") }

/-- A suspended state carrying both a pending `InputContextContinuation` and a
`SubCallID` without `ResumeInput` (the shape deciding claim C7's quantifier). -/
def egICCState : State :=
  State.mk none "" none none [] "x" [] (some State.zero) "inp" none false

/-! Helper lemmas about the association-list operations. -/

theorem alookup_ainsert_ne {α : Type} (l : List (String × α)) (k k' : String) (v : α)
    (h : k' ≠ k) : alookup (ainsert l k v) k' = alookup l k' := by
  have hkk : ¬ k = k' := fun he => h he.symm
  induction l with
  | nil => simp [ainsert, alookup, hkk]
  | cons p rest ih =>
    obtain ⟨pk, pv⟩ := p
    by_cases hk : pk = k
    · subst hk
      simp [ainsert, alookup, hkk]
    · simp [ainsert, alookup, hk, ih]

theorem ainsert_length_of_none {α : Type} (l : List (String × α)) (k : String) (v : α)
    (h : alookup l k = none) : (ainsert l k v).length = l.length + 1 := by
  induction l with
  | nil => simp [ainsert]
  | cons p rest ih =>
    obtain ⟨pk, pv⟩ := p
    by_cases hk : pk = k
    · subst hk; simp [alookup] at h
    · simp [alookup, hk] at h
      simp [ainsert, hk, ih h]

theorem lowerFold_lookup_none (props : List String) :
    ∀ (acc : List (String × String)) (key : String), alookup acc key = none →
      key ∉ props.map goToLower →
      alookup (props.foldl (fun acc k => ainsert acc (goToLower k) k) acc) key = none := by
  induction props with
  | nil =>
    intro acc key hacc _
    simpa using hacc
  | cons p rest ih =>
    intro acc key hacc hni
    rw [List.map_cons, List.mem_cons] at hni
    push_neg at hni
    simp only [List.foldl]
    exact ih _ key (by rw [alookup_ainsert_ne _ _ _ _ hni.1]; exact hacc) hni.2

theorem lowerFold_length (props : List String) :
    ∀ (acc : List (String × String)), (props.map goToLower).Nodup →
      (∀ k ∈ props, alookup acc (goToLower k) = none) →
      (props.foldl (fun acc k => ainsert acc (goToLower k) k) acc).length =
        acc.length + props.length := by
  induction props with
  | nil =>
    intro acc _ _
    simp
  | cons p rest ih =>
    intro acc hnd hfresh
    rw [List.map_cons, List.nodup_cons] at hnd
    simp only [List.foldl]
    have hfr : ∀ k ∈ rest, alookup (ainsert acc (goToLower p) p) (goToLower k) = none := by
      intro k hk
      have hne : goToLower k ≠ goToLower p := fun he =>
        hnd.1 (he ▸ List.mem_map_of_mem goToLower hk)
      rw [alookup_ainsert_ne _ _ _ _ hne]
      exact hfresh k (List.mem_cons_of_mem _ hk)
    rw [ih _ hnd.2 hfr, ainsert_length_of_none acc _ p (hfresh p (List.mem_cons_self _ _))]
    simp only [List.length_cons]
    omega

/-- C10: for every program, context tool reference and parent input, an empty
`Arg` string, or a nil `Arguments` schema on the target tool, makes
`getContextInput` return the empty string with no error — in particular a
non-empty `Arg` aimed at a tool with a nil schema succeeds silently and binds
no context input. -/
theorem context_input_empty_cases (decode : String → List (String × JValue))
    (prg : Program) (ref : ToolReference) (input : String) :
    (ref.Arg = "" → getContextInput decode prg ref input = .ok "") ∧
    ((prg.toolGet ref.ToolID).Arguments = none →
      getContextInput decode prg ref input = .ok "") := by
  constructor
  · intro h
    simp [getContextInput, h]
  · intro h
    unfold getContextInput
    by_cases ha : ref.Arg = "" <;> simp [ha, h]

/-- Witness for C10 at a concrete program: both the empty-`Arg` case and the
nil-schema case return `.ok ""`. -/
theorem context_input_empty_cases_witness :
    getContextInput (fun _ => []) { ToolSet := [("T", { ID := "T" })] }
      { ToolID := "T", Arg := "" } "in" = .ok "" ∧
    getContextInput (fun _ => []) { ToolSet := [("T", { ID := "T" })] }
      { ToolID := "T", Arg := "payload" } "in" = .ok "" :=
  ⟨(context_input_empty_cases (fun _ => []) { ToolSet := [("T", { ID := "T" })] }
      { ToolID := "T", Arg := "" } "in").1 rfl,
   (context_input_empty_cases (fun _ => []) { ToolSet := [("T", { ID := "T" })] }
      { ToolID := "T", Arg := "payload" } "in").2 rfl⟩

/-- Counterexample to C6 as stated: with no `as` alias, a target schema with
two properties that differ only in case (`Foo` / `foo`) does not fail —
`targetKeys` is keyed by lowercased property names, the two properties
collapse to a single entry, `len(targetKeys) != 1` is false, and
`getContextInput` binds the value successfully. -/
theorem context_arg_case_collapse_counterexample :
    (({ ToolSet := [("T", { ID := "T", Arguments := some ["Foo", "foo"] })] } :
        Program).toolGet "T").Arguments = some ["Foo", "foo"] ∧
    ["Foo", "foo"].length ≠ 1 ∧
    getContextInput (fun _ => [])
      { ToolSet := [("T", { ID := "T", Arguments := some ["Foo", "foo"] })] }
      { ToolID := "T", Arg := "hello" } "" =
        .ok (renderObj [("foo", JValue.str "hello")]) :=
  ⟨rfl, by decide, rfl⟩

/-- C6 (amended): binding behavior of `getContextInput` for a value token.
With a single value token and no `as` alias (goFields Arg = [t]): a
one-property schema binds the value to that property; a schema whose
properties lowercase to zero or to several distinct keys fails with an
error — properties equal modulo case collapse to one entry of the lowercased
target-key map and bind successfully instead (the counterexample above).  An
`as` alias naming a key absent (case-insensitively) from the schema's
properties also fails. -/
theorem context_arg_binding (decode : String → List (String × JValue)) (prg : Program)
    (ref : ToolReference) (input : String) (t a p : String) (props : List String)
    (hA : ref.Arg ≠ "") (htool : (prg.toolGet ref.ToolID).Arguments = some props)
    (ht1 : t ≠ "and") (ht2 : t ≠ "as") :
    (goFields ref.Arg = [t] → props = [p] → goToLower p = p →
      ∃ v, getContextInput decode prg ref input = .ok (renderObj [(p, v)])) ∧
    (goFields ref.Arg = [t] → (props.map goToLower).Nodup → props.length ≠ 1 →
      ∃ e, getContextInput decode prg ref input = .error e) ∧
    (goFields ref.Arg = [t, "as", a] → (props.map goToLower).Nodup → props ≠ [] →
      goToLower (goToLower a) = goToLower a → goToLower a ≠ "" →
      goToLower a ∉ props.map goToLower →
      ∃ e, getContextInput decode prg ref input = .error e) := by
  refine ⟨?one, ?many, ?alias0⟩
  case one =>
    intro hf hp hlp
    subst hp
    refine ⟨(if goStartsWith t "$" then
      (alookup (decode input) (goTrimSuf (goTrimPre (goTrimPre t "$") "\x7b") "\x7d")).getD .null
      else .str t), ?_⟩
    simp only [getContextInput, hA, htool, if_neg hA, hf]
    simp [List.foldl, ainsert, gciLoop, ht1, ht2, hlp, alookup]
  case many =>
    intro hf hnd hlen
    have hfold := lowerFold_length props [] hnd (by intro k _; simp [alookup])
    simp only [List.length_nil, Nat.zero_add] at hfold
    simp only [getContextInput, if_neg hA, htool, hf]
    by_cases h0 : props.length = 0
    · simp [gciLoop, ht1, ht2, hfold, h0]
    · simp [gciLoop, ht1, ht2, hfold, h0, hlen]
  case alias0 =>
    intro hf hnd hp0 hai hane hnotin
    have hfold := lowerFold_length props [] hnd (by intro k _; simp [alookup])
    simp only [List.length_nil, Nat.zero_add] at hfold
    have hlook := lowerFold_lookup_none props [] (goToLower a) (by simp [alookup]) hnotin
    have h0 : props.length ≠ 0 := by
      intro h
      exact hp0 (List.length_eq_zero.mp h)
    simp only [getContextInput, if_neg hA, htool, hf]
    simp [gciLoop, ht1, ht2, hfold, h0, hai, hane, hlook]

/-- Witness for C6 at concrete schemas: a one-property schema binds, a
two-property schema and an unknown alias fail. -/
theorem context_arg_binding_witness :
    (∃ v, getContextInput (fun _ => [])
      { ToolSet := [("T", { ID := "T", Arguments := some ["foo"] })] }
      { ToolID := "T", Arg := "hello" } "" = .ok (renderObj [("foo", v)])) ∧
    (∃ e, getContextInput (fun _ => [])
      { ToolSet := [("U", { ID := "U", Arguments := some ["a", "b"] })] }
      { ToolID := "U", Arg := "hello" } "" = .error e) ∧
    (∃ e, getContextInput (fun _ => [])
      { ToolSet := [("T", { ID := "T", Arguments := some ["foo"] })] }
      { ToolID := "T", Arg := "hello as bar" } "" = .error e) :=
  ⟨(context_arg_binding (fun _ => [])
      { ToolSet := [("T", { ID := "T", Arguments := some ["foo"] })] }
      { ToolID := "T", Arg := "hello" } "" "hello" "" "foo" ["foo"]
      (by decide) rfl (by decide) (by decide)).1 (by decide) rfl (by decide),
   (context_arg_binding (fun _ => [])
      { ToolSet := [("U", { ID := "U", Arguments := some ["a", "b"] })] }
      { ToolID := "U", Arg := "hello" } "" "hello" "" "" ["a", "b"]
      (by decide) rfl (by decide) (by decide)).2.1 (by decide) (by decide) (by decide),
   (context_arg_binding (fun _ => [])
      { ToolSet := [("T", { ID := "T", Arguments := some ["foo"] })] }
      { ToolID := "T", Arg := "hello as bar" } "" "hello" "bar" "" ["foo"]
      (by decide) rfl (by decide) (by decide)).2.2 (by decide) (by decide) (by decide)
      (by decide) (by decide) (by decide)⟩

/-- C9 (amended): `Run` is `Chat` with nil `prevState` projected to its
content; when the `Chat` call yields a non-Done response, `Run` does not fail
but still returns that response's content with no error. -/
theorem run_projects_chat :
    (∀ (fuel : Nat) (x : Externals) (env : List String) (input : String) (w : W),
      interpRun fuel x env input w =
        (interpChat fuel x .nil env input w).map (fun p => (p.1.Content, p.2))) ∧
    (∃ resp w', interpChat 6 egChatTerminal .nil [] "hello" {} = .ok (resp, w') ∧
      resp.Done = false ∧ resp.Content = "?") ∧
    (∃ w', interpRun 6 egChatTerminal [] "hello" {} = .ok ("?", w')) := by
  refine ⟨?proj, ?chat, ?run⟩
  case proj =>
    intro fuel x env input w
    unfold interpRun
    cases interpChat fuel x .nil env input w <;> rfl
  case chat => exact ⟨_, _, rfl, rfl, rfl⟩
  case run => exact ⟨_, rfl⟩

/-- Counterexample for C9 as stated: at this Chat-terminal program the `Chat`
call yields a non-Done response, yet `Run` succeeds with no error instead of
failing. -/
theorem run_nondone_counterexample :
    (∃ resp w', interpChat 6 egChatTerminal .nil [] "hello" {} = .ok (resp, w') ∧
      resp.Done = false) ∧
    (∃ out w', interpRun 6 egChatTerminal [] "hello" {} = .ok (out, w')) :=
  ⟨⟨_, _, rfl, rfl⟩, ⟨_, _, rfl⟩⟩

/-- C8: `Chat` accepts exactly three shapes of `prevState` — nil, a live
`*State`, and a JSON string, with the literal "null" treated as nil; any
other dynamic type yields an error naming the type, and a string that fails
to unmarshal yields a wrapped unmarshalling error. -/
theorem chat_prevstate_shapes (fuel : Nat) (x : Externals) (env : List String)
    (input : String) (w : W) (v typeName : String) (st : State) (e : RErr) :
    (interpChat fuel x (.other typeName) env input w =
      .error (.msg ("invalid type for state object: " ++ typeName))) ∧
    (interpChat fuel x (.ofString "null") env input w =
      interpChat fuel x .nil env input w) ∧
    (v ≠ "null" → x.jsonDecodeState v = .ok st →
      interpChat fuel x (.ofString v) env input w =
        interpChat fuel x (.ofState st) env input w) ∧
    (v ≠ "null" → x.jsonDecodeState v = .error e →
      interpChat fuel x (.ofString v) env input w =
        .error (.msg ("failed to unmarshal chat state: " ++ rerrText e))) := by
  refine ⟨?other, ?nullStr, ?okStr, ?badStr⟩
  case other => rfl
  case nullStr => simp [interpChat]
  case okStr =>
    intro hv hdec
    simp [interpChat, hv, hdec]
  case badStr =>
    intro hv hdec
    simp [interpChat, hv, hdec]

/-- Witness for C8: a non-State dynamic type and an undecodable string are
both rejected with the documented messages. -/
theorem chat_prevstate_shapes_witness :
    interpChat 3 egTrivial (.other "int") [] "" {} =
      .error (.msg "invalid type for state object: int") ∧
    interpChat 3 egTrivial (.ofString "zap") [] "" {} =
      .error (.msg "failed to unmarshal chat state: unmarshal") :=
  ⟨(chat_prevstate_shapes 3 egTrivial [] "" {} "zap" "int" State.zero (.msg "unmarshal")).1,
   (chat_prevstate_shapes 3 egTrivial [] "" {} "zap" "int" State.zero
      (.msg "unmarshal")).2.2.2 (by decide) rfl⟩

/-- C1: when the resume loop reaches a terminal continuation (non-nil
`Continuation.Result`, no pending `Calls`, empty `SubCallID`, nil
`ResumeInput`), `resume` emits a `callFinish` event and returns: for a
non-Chat tool a state with `Result` non-nil and `Continuation` nil, for a
Chat tool a state with `Continuation` non-nil and `ContinuationToolID` equal
to the tool's (non-empty) id. -/
theorem resume_terminal_shape (n : Nat) (x : Externals) (ctx : Context) (env : List String)
    (state : State) (ret : Return) (r : String) (w : W)
    (hcred : ctx.Tool.Credentials = [])
    (hcont : state.Continuation = some ret) (hres : ret.Result = some r)
    (hcalls : ret.Calls = []) (hscid : state.SubCallID = "") (hri : state.ResumeInput = none)
    (hstc : state.StartContinuation = false) (hid : ctx.Tool.ID ≠ "") :
    (ctx.Tool.Chat = false →
      interpResume (n + 2) x ctx env state w =
        .ok (State.ofResult r, w.emit { EType := .callFinish, Content := r }) ∧
      (State.ofResult r).Result ≠ none ∧ (State.ofResult r).Continuation = none) ∧
    (ctx.Tool.Chat = true →
      interpResume (n + 2) x ctx env state w =
        .ok (State.chatContinuation ret ctx.Tool.ID,
          w.emit { EType := .callFinish, Content := r }) ∧
      (State.chatContinuation ret ctx.Tool.ID).Continuation ≠ none ∧
      (State.chatContinuation ret ctx.Tool.ID).ContinuationToolID = ctx.Tool.ID ∧
      (State.chatContinuation ret ctx.Tool.ID).ContinuationToolID ≠ "") := by
  have hrun : interpResume (n + 2) x ctx env state w = resumeLoop (n + 1) x ctx env state w := by
    simp [interpResume, hstc, hcont, hcred]
  have hloop : resumeLoop (n + 1) x ctx env state w =
      (if ctx.Tool.Chat then
        .ok (State.chatContinuation ret ctx.Tool.ID, w.emit { EType := .callFinish, Content := r })
      else .ok (State.ofResult r, w.emit { EType := .callFinish, Content := r })) := by
    simp [resumeLoop, hcont, hres, hcalls, hscid, hri]
  constructor
  · intro hchat
    refine ⟨?_, by simp [State.ofResult, State.Result], by simp [State.ofResult, State.Continuation]⟩
    rw [hrun, hloop, if_neg (by simp [hchat])]
  · intro hchat
    refine ⟨?_, by simp [State.chatContinuation, State.Continuation],
      by simp [State.chatContinuation, State.ContinuationToolID], ?_⟩
    · rw [hrun, hloop, if_pos (by simp [hchat])]
    · simpa [State.chatContinuation, State.ContinuationToolID] using hid

/-- Witness for C1 at a concrete Chat tool and terminal continuation. -/
theorem resume_terminal_shape_witness :
    interpResume 2 egChatTerminal (egChatTerminal.prg.newContext) []
      (State.ofContinuation { Result := some "?" }) {} =
      .ok (State.chatContinuation { Result := some "?" } "T",
        W.emit {} { EType := .callFinish, Content := "?" }) :=
  ((resume_terminal_shape 0 egChatTerminal (egChatTerminal.prg.newContext) []
      (State.ofContinuation { Result := some "?" }) { Result := some "?" } "?" {}
      rfl rfl rfl rfl rfl rfl rfl (by decide)).2 rfl).1

/-- C4: for a command tool not on the built-in safe-list whose authorizer
answers `Accept=false` with message m, `start` returns a synthetic terminal
state whose result is "[AUTHORIZATION ERROR]: " ++ m without invoking
`engine.Start`, and `Run` on such a program returns that string with no
error. -/
theorem authorization_rejection (n : Nat) (x : Externals) (env : List String)
    (input m : String) (w : W)
    (hcmd : (x.prg.toolGet x.prg.EntryToolID).isCommand = true)
    (hsafe : (x.prg.toolGet x.prg.EntryToolID).ID ∉ x.safeTools)
    (hcred : (x.prg.toolGet x.prg.EntryToolID).Credentials = [])
    (hrefs : alookup x.prg.contextRefs (x.prg.toolGet x.prg.EntryToolID).ID = none)
    (hauth : x.auth { Tool := x.prg.toolGet x.prg.EntryToolID, InputContext := [] } input =
      .ok { Accept := false, Message := m })
    (hchat : (x.prg.toolGet x.prg.EntryToolID).Chat = false) :
    interpStart (n + 3) x x.prg.newContext none env input w =
      .ok (State.ofContinuation { Result := some ("[AUTHORIZATION ERROR]: " ++ m) },
        w.emit { EType := .callStart, Content := input }) ∧
    (w.emit { EType := .callStart, Content := input }).engineStarts = w.engineStarts ∧
    interpRun (n + 3) x env input w =
      .ok ("[AUTHORIZATION ERROR]: " ++ m,
        (w.emit { EType := .callStart, Content := input }).emit
          { EType := .callFinish, Content := "[AUTHORIZATION ERROR]: " ++ m }) := by
  have htool : x.prg.newContext.Tool = x.prg.toolGet x.prg.EntryToolID := rfl
  have hstart : interpStart (n + 3) x x.prg.newContext none env input w =
      .ok (State.ofContinuation { Result := some ("[AUTHORIZATION ERROR]: " ++ m) },
        w.emit { EType := .callStart, Content := input }) := by
    simp [interpStart, htool, hcred, interpGetContext, hrefs, getContextLoop,
      hcmd, hsafe, hauth, Program.newContext]
  refine ⟨hstart, rfl, ?_⟩
  have hresume : interpResume (n + 3) x x.prg.newContext env
      (State.ofContinuation { Result := some ("[AUTHORIZATION ERROR]: " ++ m) })
      (w.emit { EType := .callStart, Content := input }) =
      .ok (State.ofResult ("[AUTHORIZATION ERROR]: " ++ m),
        (w.emit { EType := .callStart, Content := input }).emit
          { EType := .callFinish, Content := "[AUTHORIZATION ERROR]: " ++ m }) := by
    simp [interpResume, State.ofContinuation, State.StartContinuation, State.Continuation,
      hcred, htool, Program.newContext, resumeLoop, State.SubCallID, State.ResumeInput,
      hchat]
  have hstart2 := hstart
  simp only [State.ofContinuation] at hstart2
  have hresume2 := hresume
  simp only [State.ofContinuation, State.ofResult] at hresume2
  simp [interpRun, interpChat, hstart2, State.ofContinuation, State.StartContinuation,
    hresume2, State.ofResult, State.Result]

/-- Witness for C4 at the authorizer-rejection scenario: `Run` yields the
synthetic result and the trace shows no `engine.Start` invocation. -/
theorem authorization_rejection_witness :
    interpRun 3 egAuthReject [] "" {} =
      .ok ("[AUTHORIZATION ERROR]: no",
        (W.emit {} { EType := .callStart, Content := "" }).emit
          { EType := .callFinish, Content := "[AUTHORIZATION ERROR]: no" }) :=
  (authorization_rejection 0 egAuthReject [] "" "no" {} rfl (List.not_mem_nil _) rfl rfl rfl rfl).2.2

theorem subCallsMatch_not_found (x : Externals) (ctx : Context) (env : List String)
    (category : ToolCategory) (scid : String) :
    ∀ (entries : List SubCallResult) (fuel : Nat) (state : State) (acc : List SubCallResult)
      (w : W), entries.length < fuel → (∀ e ∈ entries, e.callId ≠ scid) →
      subCallsMatch fuel x ctx env category scid entries state acc false w =
        .error (.msg ("invalid state, failed to find subCall for subCallID [" ++ scid ++ "]")) := by
  intro entries
  induction entries with
  | nil =>
    intro fuel state acc w hf _
    match fuel, hf with
    | n + 1, _ => simp [subCallsMatch]
  | cons e rest ih =>
    intro fuel state acc w hf hne
    match fuel, hf with
    | n + 1, hf =>
      have h1 : e.callId ≠ scid := hne e (by simp)
      simp only [subCallsMatch, if_neg h1]
      exact ih n state (acc ++ [e]) w (by simpa using Nat.lt_of_succ_lt_succ hf)
        (fun e' he' => hne e' (by simp [he']))

theorem subCallsMatch_siblings (x : Externals) (ctx : Context) (env : List String)
    (category : ToolCategory) (scid : String) :
    ∀ (entries : List SubCallResult) (fuel : Nat) (state : State) (acc : List SubCallResult)
      (found : Bool) (w : W) (out : (State × List SubCallResult) × W),
      subCallsMatch fuel x ctx env category scid entries state acc found w = .ok out →
      ∃ tailRs, out.1.2 = acc ++ tailRs ∧
        List.Forall₂ (fun (e r : SubCallResult) => e.callId ≠ scid → r = e) entries tailRs := by
  intro entries
  induction entries with
  | nil =>
    intro fuel state acc found w out hok
    match fuel with
    | 0 => simp [subCallsMatch] at hok
    | n + 1 =>
      simp only [subCallsMatch] at hok
      cases found with
      | true =>
        simp at hok
        refine ⟨[], by simp [← hok], List.Forall₂.nil⟩
      | false => simp at hok
  | cons e rest ih =>
    intro fuel state acc found w out hok
    match fuel with
    | 0 => simp [subCallsMatch] at hok
    | n + 1 =>
      by_cases hm : e.callId = scid
      · simp only [subCallsMatch, if_pos hm] at hok
        cases he : e.state with
        | none => simp [he] at hok
        | some subSt =>
          simp only [he] at hok
          cases hr : interpSubCallResume n x ctx env e.toolId e.callId
              (subSt.withResumeInput state.ResumeInput) category w with
          | error er => simp [hr] at hok
          | ok p =>
            simp only [hr] at hok
            obtain ⟨tail, hout, hfa⟩ := ih n (state.withResumeInput none)
              (acc ++ [SubCallResult.mk e.toolId e.callId (some p.1)]) true p.2 out hok
            refine ⟨SubCallResult.mk e.toolId e.callId (some p.1) :: tail, ?_, ?_⟩
            · simp [hout]
            · exact List.Forall₂.cons (fun h => absurd hm h) hfa
      · simp only [subCallsMatch, if_neg hm] at hok
        obtain ⟨tail, hout, hfa⟩ := ih n state (acc ++ [e]) found w out hok
        refine ⟨e :: tail, by simp [hout], List.Forall₂.cons (fun _ => rfl) hfa⟩

/-- Counterexample for C7 as stated: a state whose `SubCallID` is non-empty
and whose `ResumeInput` is nil, but which carries a pending
`InputContextContinuation`, is passed through by `subCalls` with no error. -/
theorem subcalls_icc_passthrough_counterexample :
    egICCState.SubCallID ≠ "" ∧ egICCState.ResumeInput = none ∧
    interpSubCalls 1 egTrivial { Tool := { ID := "T" } } [] egICCState .noCategory {} =
      .ok ((egICCState, []), {}) :=
  ⟨by decide, rfl, rfl⟩

/-- C7 (amended): illegal resume states are rejected with errors: `resume`
fails for every state with `StartContinuation=true` and for every state with
nil `Continuation`; for states with no pending `InputContextContinuation`
(which `subCalls` passes through unchanged), `subCalls` fails when
`SubCallID` is non-empty but `ResumeInput` is nil, and when `SubCallID`
matches no roster entry; in the matching case every entry other than the
matched one is returned unchanged. -/
theorem illegal_resume_states (n : Nat) (x : Externals) (ctx : Context) (env : List String)
    (state : State) (category : ToolCategory) (w : W) :
    (state.StartContinuation = true → ∃ e, interpResume (n + 1) x ctx env state w = .error e) ∧
    (state.Continuation = none → ∃ e, interpResume (n + 1) x ctx env state w = .error e) ∧
    (state.InputContextContinuation = none → state.SubCallID ≠ "" → state.ResumeInput = none →
      interpSubCalls (n + 1) x ctx env state category w =
        .error (.msg ("invalid state, input must be set for sub call continuation on callID [" ++
          state.SubCallID ++ "]"))) ∧
    (state.InputContextContinuation = none → state.SubCallID ≠ "" →
      state.ResumeInput ≠ none → state.SubCalls.length < n →
      (∀ e ∈ state.SubCalls, e.callId ≠ state.SubCallID) →
      interpSubCalls (n + 1) x ctx env state category w =
        .error (.msg ("invalid state, failed to find subCall for subCallID [" ++
          state.SubCallID ++ "]"))) ∧
    (∀ out, state.InputContextContinuation = none → state.SubCallID ≠ "" →
      interpSubCalls (n + 1) x ctx env state category w = .ok out →
      List.Forall₂ (fun (e r : SubCallResult) => e.callId ≠ state.SubCallID → r = e)
        state.SubCalls out.1.2) := by
  refine ⟨?startC, ?noCont, ?noInput, ?noMatch, ?siblings⟩
  case startC =>
    intro h
    exact ⟨.msg "invalid state, resume should not have StartContinuation set to true",
      by simp [interpResume, h]⟩
  case noCont =>
    intro h
    by_cases hs : state.StartContinuation
    · exact ⟨.msg "invalid state, resume should not have StartContinuation set to true",
        by simp [interpResume, h, hs]⟩
    · exact ⟨.msg "invalid state, resume should have Continuation data",
        by simp [interpResume, h, hs]⟩
  case noInput =>
    intro hicc hscid hri
    simp [interpSubCalls, hicc, hscid, hri]
  case noMatch =>
    intro hicc hscid hri hlen hne
    simp only [interpSubCalls]
    rw [if_neg (by simp [hicc]), if_pos hscid, if_neg hri]
    exact subCallsMatch_not_found x _ env category state.SubCallID state.SubCalls n state [] w
      hlen hne
  case siblings =>
    intro out hicc hscid hok
    simp only [interpSubCalls] at hok
    rw [if_neg (by simp [hicc]), if_pos hscid] at hok
    by_cases hri : state.ResumeInput = none
    · rw [if_pos hri] at hok
      exact absurd hok (by simp)
    · rw [if_neg hri] at hok
      obtain ⟨tail, hout, hfa⟩ :=
        subCallsMatch_siblings x _ env category state.SubCallID state.SubCalls n state []
          false w out hok
      simpa [hout] using hfa

/-- Witness for C7 at concrete illegal states: `StartContinuation` set, nil
`Continuation`, missing `ResumeInput`, and an unmatched `SubCallID` are all
rejected. -/
theorem illegal_resume_states_witness :
    (∃ e, interpResume 3 egTrivial { Tool := { ID := "T" } } []
      (State.mk none "" none none [] "" [] none "" none true) {} = .error e) ∧
    (∃ e, interpResume 3 egTrivial { Tool := { ID := "T" } } [] State.zero {} = .error e) ∧
    interpSubCalls 3 egTrivial { Tool := { ID := "T" } } []
      (State.mk none "" none none [] "x" [] none "" none false) .noCategory {} =
      .error (.msg "invalid state, input must be set for sub call continuation on callID [x]") ∧
    interpSubCalls 3 egTrivial { Tool := { ID := "T" } } []
      (State.mk none "" none (some "u") [SubCallResult.mk "A" "y" (some State.zero)] "x" []
        none "" none false) .noCategory {} =
      .error (.msg "invalid state, failed to find subCall for subCallID [x]") :=
  ⟨(illegal_resume_states 2 egTrivial { Tool := { ID := "T" } } []
      (State.mk none "" none none [] "" [] none "" none true) .noCategory {}).1 rfl,
   (illegal_resume_states 2 egTrivial { Tool := { ID := "T" } } [] State.zero .noCategory {}).2.1
      rfl,
   (illegal_resume_states 2 egTrivial { Tool := { ID := "T" } } []
      (State.mk none "" none none [] "x" [] none "" none false) .noCategory {}).2.2.1
      rfl (by decide) rfl,
   (illegal_resume_states 2 egTrivial { Tool := { ID := "T" } } []
      (State.mk none "" none (some "u") [SubCallResult.mk "A" "y" (some State.zero)] "x" []
        none "" none false) .noCategory {}).2.2.2.1
      rfl (by decide) (by decide) (by decide) (by decide)⟩

theorem subCallsFan_callIds (x : Externals) (ctx : Context) (env : List String)
    (category : ToolCategory) (calls : List (String × Call)) :
    ∀ (ids : List String) (fuel : Nat) (state : State) (acc : List SubCallResult) (w : W)
      (out : (State × List SubCallResult) × W),
      subCallsFan fuel x ctx env category calls ids state acc w = .ok out →
      out.1.2.map SubCallResult.callId = acc.map SubCallResult.callId ++ ids := by
  intro ids
  induction ids with
  | nil =>
    intro fuel state acc w out hok
    match fuel with
    | 0 => simp [subCallsFan] at hok
    | n + 1 =>
      simp [subCallsFan] at hok
      simp [← hok]
  | cons id rest ih =>
    intro fuel state acc w out hok
    match fuel with
    | 0 => simp [subCallsFan] at hok
    | n + 1 =>
      simp only [subCallsFan] at hok
      cases hr : interpSubCall n x ctx env ((alookup calls id).getD {}).ToolID
          ((alookup calls id).getD {}).Input id category w with
      | error er => simp [hr] at hok
      | ok p =>
        simp only [hr] at hok
        have hmap := ih n state
          (acc ++ [SubCallResult.mk ((alookup calls id).getD {}).ToolID id (some p.1)]) p.2
          out hok
        simpa [SubCallResult.callId] using hmap

/-- C2: a fresh fanout submits the continuation's calls in lexicographically
sorted call-id order — the submitted id sequence is sorted, is a permutation
of the calls map's keys, and any successful dispatch collects results in that
order — and on the spec's sequential scenario `engine.Continue` receives
`[(CallID "a", "alpha"), (CallID "b", "beta")]` in that order. -/
theorem fanout_sorted_sequential (n : Nat) (x : Externals) (ctx : Context)
    (env : List String) (state : State) (ret : Return) (category : ToolCategory) (w : W) :
    (state.InputContextContinuation = none → state.SubCallID = "" →
      state.Continuation = some ret →
      (List.Sorted strLeProp (List.insertionSort strLeProp (ret.Calls.map Prod.fst)) ∧
        List.Perm (List.insertionSort strLeProp (ret.Calls.map Prod.fst))
          (ret.Calls.map Prod.fst)) ∧
      (∀ out, interpSubCalls (n + 1) x ctx env state category w = .ok out →
        out.1.2.map SubCallResult.callId =
          List.insertionSort strLeProp (ret.Calls.map Prod.fst))) ∧
    (∃ w', interpRun 10 egSequential [] "go" {} = .ok ("done", w') ∧
      w'.continues = [[{ ToolID := "A", CallID := "a", Result := "alpha" },
                      { ToolID := "B", CallID := "b", Result := "beta" }]]) := by
  constructor
  · intro hicc hscid hcont
    refine ⟨⟨List.sorted_insertionSort _ _, List.perm_insertionSort _ _⟩, ?_⟩
    intro out hok
    simp only [interpSubCalls] at hok
    rw [if_neg (by simp [hicc])] at hok
    rw [if_neg (by simp [hscid]), hcont] at hok
    have := subCallsFan_callIds x _ env category ret.Calls
      (List.insertionSort strLeProp (ret.Calls.map Prod.fst)) n state [] w out hok
    simpa using this
  · exact Exists.intro
      { events := [{ EType := .callStart, Content := "go" },
                   { EType := .callSubCalls,
                     ToolSubCalls := [("b", { ToolID := "B", Input := "x" }),
                                      ("a", { ToolID := "A", Input := "y" })] },
                   { EType := .callStart, Content := "y" },
                   { EType := .callFinish, Content := "alpha" },
                   { EType := .callStart, Content := "x" },
                   { EType := .callFinish, Content := "beta" },
                   { EType := .callContinue, ToolResults := 2 },
                   { EType := .callFinish, Content := "done" }],
        engineStarts := [("P", "go"), ("A", "y"), ("B", "x")],
        continues := [[{ ToolID := "A", CallID := "a", Result := "alpha" },
                       { ToolID := "B", CallID := "b", Result := "beta" }]] }
      ⟨by decide, rfl⟩

/-- Witness for C2 at the sequential scenario's fanout state: the submitted id
order is sorted and a permutation of the keys, and the dispatched results
carry the call ids in that order, ["a", "b"]. -/
theorem fanout_sorted_sequential_witness :
    (List.Sorted strLeProp (List.insertionSort strLeProp ["b", "a"]) ∧
      List.Perm (List.insertionSort strLeProp ["b", "a"]) ["b", "a"]) ∧
    (∃ out, interpSubCalls 8 egSequential egSequential.prg.newContext []
        (State.ofContinuation { Calls := [("b", { ToolID := "B", Input := "x" }),
          ("a", { ToolID := "A", Input := "y" })], State := some { Input := "pin" } })
        .noCategory {} = .ok out ∧
      out.1.2.map SubCallResult.callId = ["a", "b"]) := by
  have h := (fanout_sorted_sequential 7 egSequential egSequential.prg.newContext []
    (State.ofContinuation { Calls := [("b", { ToolID := "B", Input := "x" }),
      ("a", { ToolID := "A", Input := "y" })], State := some { Input := "pin" } })
    { Calls := [("b", { ToolID := "B", Input := "x" }),
      ("a", { ToolID := "A", Input := "y" })], State := some { Input := "pin" } }
    .noCategory {}).1 rfl rfl rfl
  refine ⟨h.1, Exists.intro
    ((State.ofContinuation { Calls := [("b", { ToolID := "B", Input := "x" }),
        ("a", { ToolID := "A", Input := "y" })], State := some { Input := "pin" } },
      [SubCallResult.mk "A" "a" (some (State.ofResult "alpha")),
       SubCallResult.mk "B" "b" (some (State.ofResult "beta"))]),
     { events := [{ EType := .callStart, Content := "y" },
                  { EType := .callFinish, Content := "alpha" },
                  { EType := .callStart, Content := "x" },
                  { EType := .callFinish, Content := "beta" }],
       engineStarts := [("A", "y"), ("B", "x")] })
    ⟨rfl, ?_⟩⟩
  exact h.2 _ rfl

/-- C5: on a credential-store miss the credential tool runs, and the acquired
credential is passed to `store.Add` iff the tool name is a GitHub tool, the
providing tool's `Source.Repo` is non-nil, and at least one env value is
non-empty; in every case the env entries are appended to the working env. -/
theorem credential_store_add (n : Nat) (x : Externals) (ctx : Context) (env : List String)
    (w w1 : W) (name : String) (ref0 : ToolReference) (tool0 : Tool) (res : State)
    (r : String) (envMap : List (String × String)) (hn : 1 ≤ n)
    (hnames : ctx.Tool.Credentials = [name])
    (hover : alookup x.credOverrides name = none)
    (hmiss : isGitHubTool name = true → x.storeGet name = .ok none)
    (hmap : alookup ctx.Tool.ToolMapping name = some [ref0])
    (htool : alookup x.prg.ToolSet ref0.ToolID = some tool0)
    (hcall : interpCall n x { Tool := tool0, ToolCategory := .credential } env "" w =
      .ok (res, w1))
    (hres : res.Result = some r)
    (hdec : x.jsonDecodeEnvMap r = .ok envMap) :
    interpHandleCredentials (n + 2) x ctx env w =
      .ok (env ++ envMap.map (fun kv => kv.1 ++ "=" ++ kv.2),
        if isGitHubTool name = true ∧ (x.prg.toolGet ref0.ToolID).SourceRepo ≠ none ∧
            ¬ envMap.all (fun kv => kv.2 = "") = true then
          { w1 with adds := w1.adds ++ [{ ToolName := name, Env := envMap }] }
        else w1) := by
  obtain ⟨m, rfl⟩ : ∃ m, n = m + 1 := ⟨n - 1, by omega⟩
  have hsub : x.prg.subCallCtx ref0.ToolID .credential =
      .ok { Tool := tool0, ToolCategory := .credential } := by
    simp [Program.subCallCtx, htool]
  by_cases hgit : isGitHubTool name = true
  · simp only [interpHandleCredentials, hnames, credLoop, hover, hgit, if_pos hgit,
      hmiss hgit, hmap, List.length_cons, List.length_nil, List.headD, hsub, hcall,
      hres, hdec]
    by_cases hrepo : (x.prg.toolGet ref0.ToolID).SourceRepo = none
    · simp [hgit, hrepo, credLoop]
    · by_cases hempty : envMap.all (fun kv => kv.2 = "") = true
      · simp [hgit, hrepo, hempty, credLoop]
      · simp [hgit, hrepo, hempty, credLoop]
  · simp only [interpHandleCredentials, hnames, credLoop, hover, hgit, if_neg hgit,
      hmap, List.length_cons, List.length_nil, List.headD, hsub, hcall, hres, hdec]
    simp [hgit, credLoop]

/-- Witness for C5 at the credential scenario: the store-missed GitHub
credential is acquired by running the tool, persisted once via `store.Add`,
and its env entry `K=v` is appended to the working env. -/
theorem credential_store_add_witness :
    interpHandleCredentials 7 egCredential egCredential.prg.newContext [] {} =
      .ok (["K=v"],
        { events := [{ EType := .callStart, Content := "" },
                     { EType := .callFinish, Content := "credjson" }],
          engineStarts := [("C", "")],
          adds := [{ ToolName := "github.com/org/cred", Env := [("K", "v")] }] }) := by
  have h := credential_store_add 5 egCredential egCredential.prg.newContext [] {}
    { events := [{ EType := .callStart, Content := "" },
                 { EType := .callFinish, Content := "credjson" }],
      engineStarts := [("C", "")] }
    "github.com/org/cred" { ToolID := "C" } { ID := "C", SourceRepo := some "github.com/org" }
    (State.ofResult "credjson") "credjson" [("K", "v")]
    (by omega) rfl rfl (fun _ => rfl) rfl rfl rfl rfl rfl
  simpa using h

/-! Round-trip lemmas for the JSON codec. -/

theorem jget_nil (k : String) : jget [] k = .null := rfl

theorem jget_jf_self (k : String) (ov : Option Json) (rest : List (String × Json)) :
    jget (jf k ov ++ rest) k = ov.getD (jget rest k) := by
  cases ov with
  | none => simp [jf]
  | some v => simp [jf, jget, alookup]

theorem jget_jf_ne (k' k : String) (h : ¬ k' = k) (ov : Option Json)
    (rest : List (String × Json)) :
    jget (jf k' ov ++ rest) k = jget rest k := by
  cases ov with
  | none => simp [jf]
  | some v => simp [jf, jget, alookup, h]

theorem jget_jf_self_last (k : String) (ov : Option Json) :
    jget (jf k ov) k = ov.getD .null := by
  cases ov with
  | none => rfl
  | some v => simp [jf, jget, alookup]

theorem jget_jf_ne_last (k' k : String) (h : ¬ k' = k) (ov : Option Json) :
    jget (jf k' ov) k = .null := by
  cases ov with
  | none => rfl
  | some v => simp [jf, jget, alookup, h]

theorem except_bind_ok {ε α β : Type} (a : α) (f : α → Except ε β) :
    (Except.ok a >>= f : Except ε β) = f a := rfl

theorem except_map_ok {ε α β : Type} (a : α) (f : α → β) :
    (Except.ok a : Except ε α).map f = .ok (f a) := rfl

theorem jAsStr_strOmit (s : String) : jAsStr ((strOmit s).getD .null) = .ok s := by
  unfold strOmit
  split <;> simp_all [jAsStr]

theorem jAsOptStr_optStrOmit (os : Option String) :
    jAsOptStr ((optStrOmit os).getD .null) = .ok os := by
  cases os <;> simp [optStrOmit, jAsOptStr]

theorem jAsBool_boolOmit (b : Bool) : jAsBool ((boolOmit b).getD .null) = .ok b := by
  cases b <;> simp [boolOmit, jAsBool]

theorem engstate_round (es : EngState) : EngState.fromJson (EngState.toJson es) = .ok es := by
  cases es with
  | mk i t =>
    simp [EngState.toJson, EngState.fromJson, List.append_assoc, jget_jf_self, jget_jf_ne, jget_jf_self_last,
      jget_jf_ne_last, jAsStr_strOmit, jAsNat, except_bind_ok]

theorem call_round (c : Call) : Call.fromJson (Call.toJson c) = .ok c := by
  cases c with
  | mk t i =>
    simp [Call.toJson, Call.fromJson, List.append_assoc, jget_jf_self, jget_jf_ne, jget_jf_self_last,
      jget_jf_ne_last, jAsStr_strOmit, except_bind_ok]

theorem calls_round (l : List (String × Call)) : callsFromJson (callsToJson l) = .ok l := by
  induction l with
  | nil => rfl
  | cons kv rest ih =>
    obtain ⟨k, c⟩ := kv
    show (do
      let c' ← Call.fromJson (Call.toJson c)
      let cs ← callsFromJson (callsToJson rest)
      Except.ok ((k, c') :: cs)) = Except.ok ((k, c) :: rest)
    rw [call_round, except_bind_ok, ih, except_bind_ok]

theorem jAsCallsMap_round (l : List (String × Call)) :
    jAsCallsMap ((if l.isEmpty then none else
      some (Json.obj (callsToJson l))).getD .null) = .ok l := by
  cases l with
  | nil => rfl
  | cons kv rest =>
    simp [jAsCallsMap, calls_round]

theorem ic_round (ic : InputContext) : InputContext.fromJson (InputContext.toJson ic) = .ok ic := by
  cases ic with
  | mk t c =>
    simp [InputContext.toJson, InputContext.fromJson, List.append_assoc, jget_jf_self, jget_jf_ne,
      jget_jf_self_last, jget_jf_ne_last, jAsStr_strOmit, except_bind_ok]

theorem ics_round (l : List InputContext) : icsFromJson (icsToJson l) = .ok l := by
  induction l with
  | nil => rfl
  | cons ic rest ih =>
    show (do
      let ic' ← InputContext.fromJson (InputContext.toJson ic)
      let ics ← icsFromJson (icsToJson rest)
      Except.ok (ic' :: ics)) = Except.ok (ic :: rest)
    rw [ic_round, except_bind_ok, ih, except_bind_ok]

theorem jAsICList_round (l : List InputContext) :
    jAsICList ((listOmit (icsToJson l)).getD .null) = .ok l := by
  cases l with
  | nil => rfl
  | cons ic rest =>
    simp [listOmit, icsToJson, jAsICList]
    simpa [icsToJson] using ics_round (ic :: rest)

theorem ret_round (ret : Return) : Return.fromJson (Return.toJson ret) = .ok ret := by
  cases ret with
  | mk res calls st =>
    simp only [Return.toJson, Return.fromJson]
    simp only [List.append_assoc, jget_jf_self, jget_jf_ne, jget_jf_self_last,
      jget_jf_ne_last, String.reduceEq, not_false_eq_true]
    rw [jAsOptStr_optStrOmit, except_bind_ok]
    rw [jAsCallsMap_round, except_bind_ok]
    cases st with
    | none => rfl
    | some es =>
      obtain ⟨o, ho⟩ : ∃ o, EngState.toJson es = .obj o := ⟨_, rfl⟩
      simp only [Option.getD]
      rw [ho]
      show ((EngState.fromJson (.obj o)).map some >>= fun st =>
        (.ok { Result := res, Calls := calls, State := st } : Except String Return)) = _
      rw [← ho, engstate_round]
      rfl

theorem jAsOptRet_round (c : Option Return) :
    jAsOptRet ((c.map Return.toJson).getD .null) = .ok c := by
  cases c with
  | none => rfl
  | some ret =>
    obtain ⟨o, ho⟩ : ∃ o, Return.toJson ret = .obj o := ⟨_, rfl⟩
    show jAsOptRet ret.toJson = _
    rw [ho]
    show (Return.fromJson (Json.obj o)).map some = _
    rw [← ho, ret_round]
    rfl

set_option maxHeartbeats 1000000 in
theorem state_toJson_eq (c ctid r ri subs scid ics icc icci iccri stc) :
    State.toJson (State.mk c ctid r ri subs scid ics icc icci iccri stc) =
      Json.obj (jf "continuation" (c.map Return.toJson) ++
        jf "continuationToolID" (strOmit ctid) ++
        jf "result" (optStrOmit r) ++
        jf "resumeInput" (optStrOmit ri) ++
        jf "subCalls" (listOmit (subsToJson subs)) ++
        jf "subCallID" (strOmit scid) ++
        jf "inputContexts" (listOmit (icsToJson ics)) ++
        jf "inputContextContinuation" (optStateToJson icc) ++
        jf "inputContextContinuationInput" (strOmit icci) ++
        jf "inputContextContinuationResumeInput" (optStrOmit iccri) ++
        jf "startContinuation" (boolOmit stc)) := by
  rw [State.toJson.eq_def]

theorem sub_toJson_eq (t c st) :
    SubCallResult.toJson (SubCallResult.mk t c st) =
      Json.obj (jf "toolId" (strOmit t) ++ jf "callId" (strOmit c) ++
        jf "state" (optStateToJson st)) := by
  rw [SubCallResult.toJson.eq_def]

theorem subsToJson_nil : subsToJson [] = ([] : List Json) := by
  rw [subsToJson.eq_def]

theorem subsToJson_cons (e : SubCallResult) (rest : List SubCallResult) :
    subsToJson (e :: rest) = e.toJson :: subsToJson rest := by
  rw [subsToJson.eq_def]

theorem optStateToJson_none : optStateToJson none = none := by
  rw [optStateToJson.eq_def]

theorem optStateToJson_some (s : State) : optStateToJson (some s) = some s.toJson := by
  rw [optStateToJson.eq_def]

theorem jAsOptState_null : jAsOptState Json.null = .ok none := by
  simp [jAsOptState]

theorem jAsOptState_obj (o : List (String × Json)) :
    jAsOptState (Json.obj o) = (State.fromJson (Json.obj o)).map some := by
  simp [jAsOptState]

theorem jAsOptState_round (oc : Option State)
    (h : ∀ s', oc = some s' → State.fromJson (State.toJson s') = .ok s') :
    jAsOptState ((optStateToJson oc).getD .null) = .ok oc := by
  cases oc with
  | none =>
    rw [optStateToJson_none]
    exact jAsOptState_null
  | some s' =>
    rw [optStateToJson_some]
    show jAsOptState (State.toJson s') = Except.ok (some s')
    have hfj := h s' rfl
    cases s' with
    | mk c ctid r ri subs scid ics icc icci iccri stc =>
      rw [state_toJson_eq, jAsOptState_obj, ← state_toJson_eq, hfj]
      rfl

theorem jAsSubsList_round (l : List SubCallResult)
    (h : subsFromJson (subsToJson l) = .ok l) :
    jAsSubsList ((listOmit (subsToJson l)).getD .null) = .ok l := by
  cases l with
  | nil => simp [subsToJson_nil, listOmit, jAsSubsList]
  | cons e rest =>
    rw [subsToJson_cons] at h ⊢
    simp only [listOmit, List.isEmpty_cons, Bool.false_eq_true, if_false, ite_false,
      Option.getD]
    simpa [jAsSubsList] using h

theorem json_roundtrip_bundle : ∀ (n : Nat),
    (∀ s : State, sizeOf s ≤ n → State.fromJson (State.toJson s) = .ok s) ∧
    (∀ e : SubCallResult, sizeOf e ≤ n →
      SubCallResult.fromJson (SubCallResult.toJson e) = .ok e) ∧
    (∀ l : List SubCallResult, sizeOf l ≤ n → subsFromJson (subsToJson l) = .ok l) := by
  intro n
  induction n using Nat.strong_induction_on with
  | _ n IH =>
    refine ⟨?stateCase, ?subCase, ?listCase⟩
    case listCase =>
      intro l hl
      cases l with
      | nil => simp [subsToJson_nil, subsFromJson]
      | cons e rest =>
        simp only [List.cons.sizeOf_spec] at hl
        rw [subsToJson_cons]
        simp only [subsFromJson]
        rw [(IH (sizeOf e) (by omega)).2.1 e (le_refl _), except_bind_ok,
          (IH (sizeOf rest) (by omega)).2.2 rest (le_refl _), except_bind_ok]
    case subCase =>
      intro e he
      cases e with
      | mk t c st =>
        simp only [SubCallResult.mk.sizeOf_spec] at he
        rw [sub_toJson_eq]
        simp only [SubCallResult.fromJson]
        simp only [List.append_assoc, jget_jf_self, jget_jf_ne, jget_jf_self_last,
          jget_jf_ne_last, String.reduceEq, not_false_eq_true]
        rw [jAsStr_strOmit, except_bind_ok, jAsStr_strOmit, except_bind_ok,
          jAsOptState_round st ?stRound, except_bind_ok]
        case stRound =>
          intro s' he'
          rw [he'] at he
          simp only [Option.some.sizeOf_spec] at he
          exact (IH (sizeOf s') (by omega)).1 s' (le_refl _)
    case stateCase =>
      intro s hs
      cases s with
      | mk c ctid r ri subs scid ics icc icci iccri stc =>
        simp only [State.mk.sizeOf_spec] at hs
        rw [state_toJson_eq]
        simp only [State.fromJson]
        simp only [List.append_assoc, jget_jf_self, jget_jf_ne, jget_jf_self_last,
          jget_jf_ne_last, String.reduceEq, not_false_eq_true]
        rw [jAsOptRet_round, except_bind_ok,
          jAsStr_strOmit, except_bind_ok,
          jAsOptStr_optStrOmit, except_bind_ok,
          jAsOptStr_optStrOmit, except_bind_ok,
          jAsSubsList_round subs ((IH (sizeOf subs) (by omega)).2.2 subs (le_refl _)),
          except_bind_ok,
          jAsStr_strOmit, except_bind_ok,
          jAsICList_round, except_bind_ok,
          jAsOptState_round icc ?iccRound, except_bind_ok,
          jAsStr_strOmit, except_bind_ok,
          jAsOptStr_optStrOmit, except_bind_ok,
          jAsBool_boolOmit, except_bind_ok]
        case iccRound =>
          intro s' he'
          rw [he'] at hs
          simp only [Option.some.sizeOf_spec] at hs
          exact (IH (sizeOf s') (by omega)).1 s' (le_refl _)

/-- C3: every `runner.State` — including ones with a nested
`InputContextContinuation` tree and a `SubCalls` roster — survives a JSON
marshal/unmarshal round trip with all documented fields intact, and `Chat`
resumed from the round-tripped state behaves exactly as `Chat` resumed from
the original state. -/
theorem state_json_roundtrip (s : State) :
    State.fromJson (State.toJson s) = .ok s ∧
    ∀ (s' : State), State.fromJson (State.toJson s) = .ok s' →
      ∀ (fuel : Nat) (x : Externals) (env : List String) (input : String) (w : W),
        interpChat fuel x (.ofState s') env input w =
          interpChat fuel x (.ofState s) env input w := by
  have h := (json_roundtrip_bundle (sizeOf s)).1 s (le_refl _)
  refine ⟨h, ?_⟩
  intro s' hs' fuel x env input w
  rw [h] at hs'
  cases hs'
  rfl

theorem state_json_roundtrip_witness :
    State.fromJson (State.toJson egICCState) = .ok egICCState ∧
    interpChat 3 egTrivial (.ofState egICCState) [] "" {} =
      interpChat 3 egTrivial (.ofState egICCState) [] "" {} :=
  ⟨(state_json_roundtrip egICCState).1,
   (state_json_roundtrip egICCState).2 egICCState
     (state_json_roundtrip egICCState).1 3 egTrivial [] "" {}⟩
